import Mathlib

/-!
# gocask: a log-structured key-value store

A shallow embedding of `data.go` (the record codec) and `gocask.go` (the
engine) together with the properties of the specification that were checked
against them.

Conventions of the embedding

* A Go `string` is a `List Byte`.  A `[]byte` with its capacity is a
  `ByteSlice`; where the capacity is the length (a buffer allocated with
  `make`) it is the `List Byte` of its elements.
* `uint32` values are natural numbers below `2 ^ 32`; every place where the
  source computes in `uint32` reduces modulo `2 ^ 32` explicitly.  Go's
  `int` is 64 bits wide and holds lengths and file offsets, which never
  reach `2 ^ 63`; it is modelled by `Nat`, except in `createFilenameId`
  where the wrap is written out.
* A run-time panic is the result `none` (or `Res.panic`).
* The disk is a finite map from file names to contents whose operations do
  not fail; the wall clock is an argument of `set`.
-/

namespace Cask

/-! ## Bytes and slices -/

/-- One octet. -/
abbrev Byte := Fin 256

/-- Conversion `uint32(n)` of a non-negative integer. -/
def uint32 (n : Nat) : Nat := n % 4294967296

/-- Conversion `byte(n)`. -/
def toByte (n : Nat) : Byte := ⟨n % 256, Nat.mod_lt n (by decide)⟩

/-- The slice expression `s[lo:hi]` on a slice whose capacity is its length
(the general case is `ByteSlice.slice`): it panics unless `lo ≤ hi ≤ cap(s)`. -/
def slice (s : List Byte) (lo hi : Nat) : Option (List Byte) :=
  if lo ≤ hi ∧ hi ≤ s.length then some ((s.take hi).drop lo) else none

/-- Go's `binary.LittleEndian.PutUint32`: the bytes `v`, `v>>8`, `v>>16`,
`v>>24`, each truncated to eight bits. -/
def putUint32 (v : Nat) : List Byte :=
  [toByte v, toByte (v / 256), toByte (v / 65536), toByte (v / 16777216)]

/-- Go's `binary.LittleEndian.Uint32`: `b[0] | b[1]<<8 | b[2]<<16 | b[3]<<24`
(the four terms occupy disjoint bits, so the disjunction is their sum); it
panics on fewer than four bytes. -/
def getUint32 (b : List Byte) : Option Nat :=
  match b with
  | b0 :: b1 :: b2 :: b3 :: _ =>
      some (b0.val + b1.val * 256 + b2.val * 65536 + b3.val * 16777216)
  | _ => none

/-! ## data.go -/

/-- The constant `headerSize`. -/
def headerSize : Nat := 12

/-- The function `encodeHeader`. -/
def encodeHeader (timestamp keySize valueSize : Nat) : List Byte :=
  putUint32 timestamp ++ putUint32 keySize ++ putUint32 valueSize

/-- The function `decodeHeader`. -/
def decodeHeader (header : List Byte) : Option (Nat × Nat × Nat) := do
  let timestamp ← (slice header 0 4).bind getUint32
  let keySize ← (slice header 4 8).bind getUint32
  let valueSize ← (slice header 8 12).bind getUint32
  pure (timestamp, keySize, valueSize)

/-- The function `encodeFileRecord`: the pair (total size, bytes). -/
def encodeFileRecord (timestamp : Nat) (key value : List Byte) : Nat × List Byte :=
  let header := encodeHeader timestamp (uint32 key.length) (uint32 value.length)
  let data := key ++ value
  (headerSize + data.length, header ++ data)

/-- The function `decodeFileRecord` on a buffer whose capacity is its length,
such as the one `get` allocates with `make` (the general case is
`ByteSlice.decodeFileRecord`, which is this function on the bytes of the buffer
up to its capacity).  The index expressions `headerSize+keySize` and
`headerSize+keySize+valueSize` are `uint32` arithmetic in the source. -/
def decodeFileRecord (data : List Byte) : Option (Nat × List Byte × List Byte) := do
  let header ← slice data 0 headerSize
  let (timestamp, keySize, valueSize) ← decodeHeader header
  let key ← slice data headerSize (uint32 (headerSize + keySize))
  let value ← slice data (uint32 (headerSize + keySize))
    (uint32 (headerSize + keySize + valueSize))
  pure (timestamp, key, value)

/-! ## Slices with spare capacity -/

/-- A Go `[]byte`: the bytes of its backing array from the first element of
the slice to the end of its capacity, and its length.  The elements of the
slice are the first `len` bytes. -/
structure ByteSlice where
  array : List Byte
  len : Nat
deriving DecidableEq, Repr

/-- The capacity `cap(s)`. -/
def ByteSlice.cap (s : ByteSlice) : Nat := s.array.length

/-- The elements of the slice, as `string(s)` copies them. -/
def ByteSlice.bytes (s : ByteSlice) : List Byte := s.array.take s.len

/-- The slice expression `s[lo:hi]`: it panics unless `lo ≤ hi ≤ cap(s)`, and
the result keeps the capacity that is left behind `lo`. -/
def ByteSlice.slice (s : ByteSlice) (lo hi : Nat) : Option ByteSlice :=
  if lo ≤ hi ∧ hi ≤ s.cap then some { array := s.array.drop lo, len := hi - lo } else none

/-- Go's `binary.LittleEndian.Uint32`: the index `b[3]` is checked against the
length. -/
def ByteSlice.getUint32 (b : ByteSlice) : Option Nat :=
  if 4 ≤ b.len then Cask.getUint32 b.array else none

/-- The function `decodeHeader` on a slice with its capacity. -/
def ByteSlice.decodeHeader (header : ByteSlice) : Option (Nat × Nat × Nat) := do
  let timestamp ← (header.slice 0 4).bind ByteSlice.getUint32
  let keySize ← (header.slice 4 8).bind ByteSlice.getUint32
  let valueSize ← (header.slice 8 12).bind ByteSlice.getUint32
  pure (timestamp, keySize, valueSize)

/-- The function `decodeFileRecord` on a slice with its capacity. -/
def ByteSlice.decodeFileRecord (data : ByteSlice) : Option (Nat × List Byte × List Byte) := do
  let header ← data.slice 0 headerSize
  let (timestamp, keySize, valueSize) ← header.decodeHeader
  let key ← data.slice headerSize (uint32 (headerSize + keySize))
  let value ← data.slice (uint32 (headerSize + keySize))
    (uint32 (headerSize + keySize + valueSize))
  pure (timestamp, key.bytes, value.bytes)

/-! ## The environment: disk, files, results -/

/-- A disk: file names with their contents, the newest binding of a name
first. -/
abbrev Disk := List (String × List Byte)

/-- The content of the file called `name`, if there is one. -/
def Disk.read : Disk → String → Option (List Byte)
  | [], _ => none
  | (n, c) :: rest, name => if n = name then some c else Disk.read rest name

/-- The disk in which the file `name` holds `content`. -/
def Disk.write (d : Disk) (name : String) (content : List Byte) : Disk :=
  (name, content) :: d

/-- The bytes of the file `name` (none for a file that does not exist). -/
def Disk.content (d : Disk) (name : String) : List Byte :=
  (d.read name).getD []

/-- An open `*os.File`: its name, its file position, whether it was opened
with `O_APPEND`, and whether `Close` was called on it. -/
structure File where
  name : String
  offset : Nat
  append : Bool
  closed : Bool
deriving DecidableEq, Repr

/-- The outcome of a function that returns an `error` and can also panic. -/
inductive Res (α : Type) where
  | ok : α → Res α
  | err : String → Res α
  | panic : Res α
deriving DecidableEq, Repr

/-- The file content after `Write(data)` at position `pos`; a gap beyond the
end of the file reads as zeros. -/
def writeAt (content : List Byte) (pos : Nat) (data : List Byte) : List Byte :=
  content.take pos ++ List.replicate (pos - content.length) 0 ++ data
    ++ content.drop (pos + data.length)

/-- Go's `io.ReadFull` of `n` bytes on the bytes `rest` that remain in a
file: the bytes read and the bytes that remain, or none for the errors
`EOF` and `ErrUnexpectedEOF`.  Reading zero bytes always succeeds. -/
def readFull (rest : List Byte) (n : Nat) : Option (List Byte × List Byte) :=
  if n ≤ rest.length then some (rest.take n, rest.drop n) else none

/-! ## gocask.go -/

/-- The constant `MaxFileSize`, `1 << 30`. -/
def MaxFileSize : Nat := 1073741824

/-- The struct `Entry`. -/
structure Entry where
  fileId : String
  valueSize : Nat
  valuePos : Nat
  timestamp : Nat
deriving DecidableEq, Repr

/-- The map type of `keyDir`: the newest binding of a key first. -/
abbrev KeyDir := List (List Byte × Entry)

/-- The map read `keyDir[key]`. -/
def KeyDir.find : KeyDir → List Byte → Option Entry
  | [], _ => none
  | (k, e) :: rest, key => if k = key then some e else KeyDir.find rest key

/-- The map assignment `keyDir[key] = e`. -/
def KeyDir.insert (m : KeyDir) (key : List Byte) (e : Entry) : KeyDir :=
  (key, e) :: m

/-- The struct `GocaskHandle`; a nil `currentFile` is `none`. -/
structure GocaskHandle where
  datafileDir : String
  currentFile : Option File
  writePosition : Nat
  keyDir : KeyDir
deriving DecidableEq, Repr

/-- The function `newEntry`. -/
def newEntry (fileId : String) (valueSize valuePos timestamp : Nat) : Entry :=
  { fileId := fileId, valueSize := valueSize, valuePos := valuePos, timestamp := timestamp }

/-- The function `isFileExists`. -/
def isFileExists (d : Disk) (fileName : String) : Bool :=
  (d.read fileName).isSome

/-- One attempt of the pattern `(\d+)\.gocask` at the start of `cs`: the
digits captured.  The digit run is greedy and what follows it must be a
dot, so giving back digits never helps. -/
def matchHere (cs : List Char) : Option (List Char) :=
  let digits := cs.takeWhile Char.isDigit
  if digits ≠ [] ∧ ".gocask".toList.isPrefixOf (cs.dropWhile Char.isDigit) = true
  then some digits else none

/-- The capture group of the leftmost match of `(\d+)\.gocask`, as
`FindStringSubmatch` finds it; none when nothing matches. -/
def findSubmatch : List Char → Option (List Char)
  | [] => none
  | c :: cs =>
    match matchHere (c :: cs) with
    | some digits => some digits
    | none => findSubmatch cs

/-- Go's `strconv.Atoi` on a string of decimal digits, the error dropped: a
value beyond the largest `int` comes back as that largest `int`. -/
def atoi (digits : List Char) : Nat :=
  min (digits.foldl (fun n c => 10 * n + (c.toNat - 48)) 0) 9223372036854775807

/-- Go's `strconv.Itoa`. -/
def itoa (i : Int) : String :=
  match i with
  | Int.ofNat n => Nat.repr n
  | Int.negSucc n => "-" ++ Nat.repr (n + 1)

/-- The `int` sum `a + 1`, which wraps at `2 ^ 63`. -/
def intSucc (a : Nat) : Int :=
  if a + 1 < 9223372036854775808 then (a + 1 : Nat) else (a + 1 : Nat) - 18446744073709551616

/-- The function `createFilenameId`: indexing the nil result of a failed
match panics. -/
def createFilenameId (filename : String) : Res String :=
  if filename = "" then Res.err "File name not defined!"
  else
    match findSubmatch filename.toList with
    | none => Res.panic
    | some digits => Res.ok (itoa (intSucc (atoi digits)))

/-- Go's `filepath.Join` of a directory and a file name, for the
directories the engine uses (the empty one and plain names). -/
def joinPath (dir file : String) : String :=
  if dir = "" then file else dir ++ "/" ++ file

/-- The method `createNewDataFile`: `os.Create` truncates and opens without
`O_APPEND`. -/
def createNewDataFile (d : Disk) (gocask : GocaskHandle) : Res (Disk × GocaskHandle) :=
  match gocask.currentFile with
  | none => Res.panic
  | some f =>
    match createFilenameId f.name with
    | Res.panic => Res.panic
    | Res.err e => Res.err e
    | Res.ok temp =>
      let path := joinPath gocask.datafileDir (temp ++ ".gocask.dat")
      Res.ok (d.write path [],
        { gocask with
          currentFile := some { name := path, offset := 0, append := false, closed := false }
          writePosition := 0 })

/-- The method `isMaxFileSize`: `Stat` on a closed file leaves `stat` nil,
and `stat.Size()` panics. -/
def isMaxFileSize (d : Disk) (gocask : GocaskHandle) (size : Nat) : Res (Disk × GocaskHandle) :=
  match gocask.currentFile with
  | none => createNewDataFile d gocask
  | some f =>
    if f.closed then Res.panic
    else
      let nextSize := (d.content f.name).length + size
      if nextSize > MaxFileSize then createNewDataFile d gocask
      else Res.ok (d, gocask)

/-- The method `write`: every error is a panic.  With `O_APPEND` the bytes
go to the end of the file, otherwise to the file position. -/
def write (d : Disk) (gocask : GocaskHandle) (data : List Byte) : Option (Disk × GocaskHandle) :=
  match isMaxFileSize d gocask data.length with
  | Res.ok (d1, g1) =>
    match g1.currentFile with
    | none => none
    | some f =>
      if f.closed then none
      else
        let content := d1.content f.name
        let pos := if f.append then content.length else f.offset
        some (d1.write f.name (writeAt content pos data),
          { g1 with currentFile := some { f with offset := pos + data.length } })
  | _ => none

/-- The method `set`; `now` is the value of `time.Now().Unix()`. -/
def set (d : Disk) (gocask : GocaskHandle) (now : Int) (key value : List Byte) :
    Option (Disk × GocaskHandle) :=
  match gocask.currentFile with
  | none => none
  | some f =>
    let fileId := f.name ++ ".gocask.dat"
    let timestamp := (now % 4294967296).toNat
    let (size, data) := encodeFileRecord timestamp key value
    match write d gocask data with
    | none => none
    | some (d1, g1) =>
      some (d1,
        { g1 with
          keyDir := g1.keyDir.insert key
            (newEntry fileId (uint32 size) (uint32 g1.writePosition) timestamp)
          writePosition := g1.writePosition + size })

/-- The method `get`: the value returned and the handle, whose file position
`Seek` and `ReadFull` have moved.  The error of `Seek` is dropped; `ReadFull`
of a non-empty buffer fails on a closed file. -/
def get (d : Disk) (gocask : GocaskHandle) (key : List Byte) :
    Option (List Byte × GocaskHandle) :=
  match gocask.keyDir.find key with
  | none => some ([], gocask)
  | some keyEntry =>
    match gocask.currentFile with
    | none => none
    | some f =>
      if f.closed ∧ keyEntry.valueSize ≠ 0 then none
      else
        match readFull ((d.content f.name).drop keyEntry.valuePos) keyEntry.valueSize with
        | none => none
        | some (data, _) =>
          match decodeFileRecord data with
          | none => none
          | some (_, _, value) =>
            some (value,
              if f.closed then gocask
              else { gocask with
                currentFile := some { f with offset := keyEntry.valuePos + keyEntry.valueSize } })

/-- The loop of `initializeKeyDir` on the bytes `rest` not yet read; `fuel`
bounds the number of rounds (each round that goes on reads at least the
twelve bytes of a header). -/
def scanRecords (fuel : Nat) (rest : List Byte) (gocask : GocaskHandle)
    (existingFile : String) : GocaskHandle :=
  match fuel with
  | 0 => gocask
  | fuel + 1 =>
    match readFull rest headerSize with
    | none => gocask
    | some (header, rest1) =>
      match decodeHeader header with
      | none => gocask
      | some (timestamp, keySize, valueSize) =>
        match readFull rest1 keySize with
        | none => gocask
        | some (key, rest2) =>
          match readFull rest2 valueSize with
          | none => gocask
          | some (_, rest3) =>
            let totalSize := uint32 (headerSize + keySize + valueSize)
            scanRecords fuel rest3
              { gocask with
                keyDir := gocask.keyDir.insert key
                  (newEntry existingFile totalSize (uint32 gocask.writePosition) timestamp)
                writePosition := gocask.writePosition + totalSize }
              existingFile

/-- The method `initializeKeyDir`.  When `os.Open` fails the first
`ReadFull` fails and the loop ends at once. -/
def initializeKeyDir (d : Disk) (gocask : GocaskHandle) (existingFile : String) :
    GocaskHandle :=
  match d.read existingFile with
  | none => gocask
  | some content => scanRecords content.length content gocask existingFile

/-- The function `Gocask` where `os.OpenFile` succeeds: the disk after
`os.OpenFile` with `O_APPEND|O_RDWR|O_CREATE` and the new handle.  (Where
`os.OpenFile` fails, as it does for the empty name, the source returns
`nil, err` and there is no store.) -/
def Gocask (d : Disk) (fileName : String) : Disk × GocaskHandle :=
  let gocask : GocaskHandle :=
    { datafileDir := "", currentFile := none, writePosition := 0, keyDir := [] }
  let gocask := if isFileExists d fileName then initializeKeyDir d gocask fileName else gocask
  (if isFileExists d fileName then d else d.write fileName [],
    { gocask with
      currentFile := some { name := fileName, offset := 0, append := true, closed := false } })

/-- The method `close`: `Close` on a nil or closed file is an error. -/
def close (gocask : GocaskHandle) : GocaskHandle × Bool :=
  match gocask.currentFile with
  | none => (gocask, false)
  | some f =>
    if f.closed then (gocask, false)
    else ({ gocask with currentFile := some { f with closed := true } }, true)

/-! ## The engine on a disk that can fail -/

/-- The failures of the disk during one `set`: `os.Create` returns an error;
`Write` returns an error after writing the given number of bytes; `Sync`
returns an error. -/
structure Faults where
  createFails : Bool
  writeFails : Option Nat
  syncFails : Bool
deriving DecidableEq, Repr

/-- How a call ends: it returns; or it returns an error to its caller, which
only a function with an `error` result can do; or it panics, with the error
given to `panic(err)` or, for a run-time panic, with none.  Each time with the
disk and the engine as they are then. -/
inductive Outcome where
  | returned : Disk → GocaskHandle → Outcome
  | reported : String → Disk → GocaskHandle → Outcome
  | panicked : Option String → Disk → GocaskHandle → Outcome
deriving DecidableEq, Repr

/-- The method `createNewDataFile` when `os.Create` can fail: the error is
returned before the handle is touched. -/
def createNewDataFileF (ft : Faults) (d : Disk) (gocask : GocaskHandle) :
    Res (Disk × GocaskHandle) :=
  match gocask.currentFile with
  | none => Res.panic
  | some f =>
    match createFilenameId f.name with
    | Res.panic => Res.panic
    | Res.err e => Res.err e
    | Res.ok temp =>
      if ft.createFails then Res.err "create"
      else
        let path := joinPath gocask.datafileDir (temp ++ ".gocask.dat")
        Res.ok (d.write path [],
          { gocask with
            currentFile := some { name := path, offset := 0, append := false, closed := false }
            writePosition := 0 })

/-- The method `isMaxFileSize` when `os.Create` can fail. -/
def isMaxFileSizeF (ft : Faults) (d : Disk) (gocask : GocaskHandle) (size : Nat) :
    Res (Disk × GocaskHandle) :=
  match gocask.currentFile with
  | none => createNewDataFileF ft d gocask
  | some f =>
    if f.closed then Res.panic
    else
      let nextSize := (d.content f.name).length + size
      if nextSize > MaxFileSize then createNewDataFileF ft d gocask
      else Res.ok (d, gocask)

/-- The method `write` when the disk can fail: it has no result, and each of
its three errors goes to `panic(err)`; a panic of the rotation check goes on. -/
def writeF (ft : Faults) (d : Disk) (gocask : GocaskHandle) (data : List Byte) : Outcome :=
  match isMaxFileSizeF ft d gocask data.length with
  | Res.ok (d1, g1) =>
    match g1.currentFile with
    | none => Outcome.panicked (some "invalid argument") d1 g1
    | some f =>
      if f.closed then Outcome.panicked (some "file already closed") d1 g1
      else
        let content := d1.content f.name
        let pos := if f.append then content.length else f.offset
        match ft.writeFails with
        | some n =>
          Outcome.panicked (some "write") (d1.write f.name (writeAt content pos (data.take n)))
            { g1 with currentFile := some { f with offset := pos + (data.take n).length } }
        | none =>
          if ft.syncFails then
            Outcome.panicked (some "sync") (d1.write f.name (writeAt content pos data))
              { g1 with currentFile := some { f with offset := pos + data.length } }
          else
            Outcome.returned (d1.write f.name (writeAt content pos data))
              { g1 with currentFile := some { f with offset := pos + data.length } }
  | Res.err e => Outcome.panicked (some e) d gocask
  | Res.panic => Outcome.panicked none d gocask

/-- The method `set` when the disk can fail: it has no result either, and a
panic of `write` goes on through it. -/
def setF (ft : Faults) (d : Disk) (gocask : GocaskHandle) (now : Int)
    (key value : List Byte) : Outcome :=
  match gocask.currentFile with
  | none => Outcome.panicked none d gocask
  | some f =>
    let fileId := f.name ++ ".gocask.dat"
    let timestamp := (now % 4294967296).toNat
    let (size, data) := encodeFileRecord timestamp key value
    match writeF ft d gocask data with
    | Outcome.panicked v d1 g1 => Outcome.panicked v d1 g1
    | Outcome.reported e d1 g1 => Outcome.reported e d1 g1
    | Outcome.returned d1 g1 =>
      Outcome.returned d1
        { g1 with
          keyDir := g1.keyDir.insert key
            (newEntry fileId (uint32 size) (uint32 g1.writePosition) timestamp)
          writePosition := g1.writePosition + size }

/-- A disk that does not fail. -/
def noFaults : Faults := { createFails := false, writeFails := none, syncFails := false }

/-! ## Vocabulary of the specification -/

/-- The number a byte string denotes in little-endian order. -/
def leNat : List Byte → Nat
  | [] => 0
  | b :: bs => b.val + 256 * leNat bs

/-- The timestamp, key length and value length that the first twelve bytes
of a buffer declare. -/
def declared (data : List Byte) : Nat × Nat × Nat :=
  (leNat (data.take 4), leNat ((data.drop 4).take 4), leNat ((data.drop 8).take 4))

/-- A record of the log: its timestamp, key and value. -/
structure Record where
  timestamp : Nat
  key : List Byte
  value : List Byte
deriving DecidableEq, Repr

/-- The size of a record on disk. -/
def Record.size (r : Record) : Nat := 12 + r.key.length + r.value.length

/-- The bytes of a log: the encoded records one after the other. -/
def encodeLog : List Record → List Byte
  | [] => []
  | r :: rs => (encodeFileRecord r.timestamp r.key r.value).2 ++ encodeLog rs

/-- The size on disk of a log. -/
def logSize : List Record → Nat
  | [] => 0
  | r :: rs => r.size + logSize rs

/-- The last record of a log for `key` together with the offset at which it
starts, the log starting at offset `pos`. -/
def lastRecordFrom (pos : Nat) : List Record → List Byte → Option (Nat × Record)
  | [], _ => none
  | r :: rs, key =>
    match lastRecordFrom (pos + r.size) rs key with
    | some found => some found
    | none => if r.key = key then some (pos, r) else none

/-- One call `set(key, value)`, made when the clock reads `now`. -/
structure SetCall where
  now : Int
  key : List Byte
  value : List Byte
deriving DecidableEq, Repr

/-- The record that a call of `set` appends. -/
def SetCall.record (c : SetCall) : Record :=
  { timestamp := (c.now % 4294967296).toNat, key := c.key, value := c.value }

/-- A sequence of `set` calls, run in order; none when one of them panics. -/
def setAll (d : Disk) (gocask : GocaskHandle) : List SetCall → Option (Disk × GocaskHandle)
  | [] => some (d, gocask)
  | c :: cs =>
    match set d gocask c.now c.key c.value with
    | none => none
    | some (d1, g1) => setAll d1 g1 cs

/-- The value given by the last call of the sequence that sets `key`. -/
def lastValue : List SetCall → List Byte → Option (List Byte)
  | [], _ => none
  | c :: cs, key =>
    match lastValue cs key with
    | some v => some v
    | none => if c.key = key then some c.value else none

/-- The total encoded size of the records that a sequence of calls writes. -/
def totalEncodedSize (cs : List SetCall) : Nat :=
  logSize (cs.map SetCall.record)

/-- The value that `get` returns, the handle left aside. -/
def getValue (d : Disk) (gocask : GocaskHandle) (key : List Byte) : Option (List Byte) :=
  (get d gocask key).map Prod.fst

/-- What an entry of the key directory says of a record: offset, size and
timestamp. -/
def Entry.view (e : Entry) : Nat × Nat × Nat := (e.valuePos, e.valueSize, e.timestamp)

/-- What a record found at an offset of the log has as offset, size and
timestamp. -/
def locatedView (loc : Nat × Record) : Nat × Nat × Nat :=
  (loc.1, loc.2.size, loc.2.timestamp)

/-- The key directory `m` indexes the log: every key has an entry exactly when
the log has a record for it, and the entry is that of its last record. -/
def Indexed (m : KeyDir) (log : List Record) : Prop :=
  ∀ key, (m.find key).map Entry.view = (lastRecordFrom 0 log key).map locatedView

/-- The engine and the disk agree with the log: the file `name` is open for
appending and holds the log, the write position is its end, and the key
directory indexes it. -/
def Consistent (d : Disk) (gocask : GocaskHandle) (name : String) (log : List Record) : Prop :=
  (∃ off, gocask.currentFile =
      some { name := name, offset := off, append := true, closed := false }) ∧
  d.read name = some (encodeLog log) ∧
  gocask.writePosition = logSize log ∧
  Indexed gocask.keyDir log

/-- What one round of the recovery loop does with a complete record. -/
def indexRecord (existingFile : String) (gocask : GocaskHandle) (r : Record) : GocaskHandle :=
  { gocask with
    keyDir := gocask.keyDir.insert r.key
      (newEntry existingFile (uint32 (headerSize + r.key.length + r.value.length))
        (uint32 gocask.writePosition) (uint32 r.timestamp))
    writePosition := gocask.writePosition +
      uint32 (headerSize + r.key.length + r.value.length) }

/-- The bytes `tail` do not hold a complete record: they are shorter than a
header, or shorter than the header and the lengths it declares. -/
def Incomplete (tail : List Byte) : Prop :=
  tail.length < 12 ∨ tail.length < 12 + (declared tail).2.1 + (declared tail).2.2

/-- The keys and values of the records of a log are shorter than `2 ^ 32`
bytes, as `encodeFileRecord` expects them. -/
def InContract (log : List Record) : Prop :=
  ∀ r ∈ log, r.key.length < 4294967296 ∧ r.value.length < 4294967296

instance (log : List Record) : Decidable (InContract log) := by
  unfold InContract
  infer_instance

/-- A file that holds one complete record, key `k` with value `v`, followed
by the first 13 bytes of a record that a crash cut short. -/
def truncatedFile : List Byte :=
  (encodeFileRecord 1 [107] [118]).2 ++ (encodeFileRecord 3 [97] [98, 99]).2.take 13

/-- The disk that holds `truncatedFile` under the name `test.db`. -/
def truncatedDisk : Disk := [("test.db", truncatedFile)]

/-- A view of the engine and the disk: the active file is open under `name`
with file position `offset` and with or without `O_APPEND`, it holds `content`,
the engine's directory is the empty one, its write position is `wp` and its key
directory is `kd`. -/
def Snapshot (d : Disk) (gocask : GocaskHandle) (name : String) (offset : Nat) (append : Bool)
    (content : List Byte) (wp : Nat) (kd : KeyDir) : Prop :=
  gocask.currentFile = some { name := name, offset := offset, append := append, closed := false } ∧
  gocask.datafileDir = "" ∧
  d.content name = content ∧
  gocask.writePosition = wp ∧
  gocask.keyDir = kd

/-! ## The record codec -/

theorem putUint32_length (v : Nat) : (putUint32 v).length = 4 := rfl

theorem getUint32_putUint32 (v : Nat) : getUint32 (putUint32 v) = some (uint32 v) := by
  simp only [putUint32, getUint32, toByte, uint32, Option.some.injEq]
  omega

theorem leNat_putUint32 (v : Nat) : leNat (putUint32 v) = uint32 v := by
  simp only [putUint32, leNat, toByte, uint32]
  omega

theorem uint32_of_lt {n : Nat} (h : n < 4294967296) : uint32 n = n :=
  Nat.mod_eq_of_lt h

theorem uint32_lt (n : Nat) : uint32 n < 4294967296 :=
  Nat.mod_lt n (by decide)

theorem encodeHeader_length (t k v : Nat) : (encodeHeader t k v).length = 12 := rfl

theorem decodeHeader_encodeHeader (t k v : Nat) :
    decodeHeader (encodeHeader t k v) = some (uint32 t, uint32 k, uint32 v) := by
  have h1 : slice (encodeHeader t k v) 0 4 = some (putUint32 t) := rfl
  have h2 : slice (encodeHeader t k v) 4 8 = some (putUint32 k) := rfl
  have h3 : slice (encodeHeader t k v) 8 12 = some (putUint32 v) := rfl
  simp [decodeHeader, h1, h2, h3, getUint32_putUint32]

theorem leNat_lt_of_length_four (b : List Byte) (h : b.length = 4) : leNat b < 4294967296 := by
  match b, h with
  | [b0, b1, b2, b3], _ =>
    simp only [leNat]
    omega

theorem decodeHeader_of_length (header : List Byte) (h : header.length = 12) :
    decodeHeader header = some (leNat (header.take 4), leNat ((header.drop 4).take 4),
      leNat ((header.drop 8).take 4)) := by
  match header, h with
  | [b0, b1, b2, b3, b4, b5, b6, b7, b8, b9, b10, b11], _ =>
    simp [decodeHeader, slice, getUint32, leNat]
    omega

theorem declared_lt (data : List Byte) (h : 12 ≤ data.length) :
    (declared data).1 < 4294967296 ∧ (declared data).2.1 < 4294967296 ∧
      (declared data).2.2 < 4294967296 := by
  refine ⟨leNat_lt_of_length_four _ ?_, leNat_lt_of_length_four _ ?_,
    leNat_lt_of_length_four _ ?_⟩ <;> simp <;> omega

theorem decodeHeader_take (data : List Byte) (h : 12 ≤ data.length) :
    decodeHeader (data.take 12) = some (declared data) := by
  rw [decodeHeader_of_length _ (by simp; omega)]
  simp [declared, List.take_take, List.take_drop]

/-- What `decodeFileRecord` computes on a buffer that holds a header. -/
theorem decodeFileRecord_of_header (data : List Byte) (h : 12 ≤ data.length) :
    decodeFileRecord data =
      if 12 ≤ uint32 (12 + (declared data).2.1) ∧
          uint32 (12 + (declared data).2.1) ≤
            uint32 (12 + (declared data).2.1 + (declared data).2.2) ∧
          uint32 (12 + (declared data).2.1 + (declared data).2.2) ≤ data.length
      then some ((declared data).1,
        (data.take (uint32 (12 + (declared data).2.1))).drop 12,
        (data.take (uint32 (12 + (declared data).2.1 + (declared data).2.2))).drop
          (uint32 (12 + (declared data).2.1)))
      else none := by
  have hs : slice data 0 headerSize = some (data.take 12) := by
    simp [slice, headerSize, h]
  have hd := decodeHeader_take data h
  generalize declared data = dec at hd ⊢
  obtain ⟨t, k, v⟩ := dec
  unfold decodeFileRecord
  rw [hs]
  simp only [Option.bind_eq_bind, Option.some_bind, Option.pure_def, hd]
  simp only [headerSize, slice]
  by_cases h1 : 12 ≤ uint32 (12 + k) ∧ uint32 (12 + k) ≤ data.length
  · by_cases h2 : uint32 (12 + k) ≤ uint32 (12 + k + v) ∧ uint32 (12 + k + v) ≤ data.length
    · simp [h1, h2]
    · have h3 : ¬(12 ≤ uint32 (12 + k) ∧ uint32 (12 + k) ≤ uint32 (12 + k + v) ∧
          uint32 (12 + k + v) ≤ data.length) := fun hc => h2 hc.2
      rw [if_pos h1, if_neg h2, if_neg h3]
      rfl
  · have h3 : ¬(12 ≤ uint32 (12 + k) ∧ uint32 (12 + k) ≤ uint32 (12 + k + v) ∧
        uint32 (12 + k + v) ≤ data.length) := fun hc => h1 ⟨hc.1, by omega⟩
    rw [if_neg h1, if_neg h3]
    rfl

theorem decodeFileRecord_short (data : List Byte) (h : data.length < 12) :
    decodeFileRecord data = none := by
  have hs : slice data 0 headerSize = none := by
    simp [slice, headerSize]; omega
  simp [decodeFileRecord, hs]

theorem take_drop_mid {α : Type} (a b c : List α) :
    ((a ++ (b ++ c)).take (a.length + b.length)).drop a.length = b := by
  rw [← List.append_assoc, ← List.length_append, List.take_left, List.drop_left]

theorem take_drop_last {α : Type} (a b c : List α) :
    ((a ++ (b ++ c)).take (a.length + b.length + c.length)).drop (a.length + b.length) = c := by
  rw [← List.append_assoc, ← List.length_append, ← List.length_append, List.take_length,
    List.drop_left]

theorem declared_encodeHeader_append (t k v : Nat) (rest : List Byte) :
    declared (encodeHeader t k v ++ rest) = (uint32 t, uint32 k, uint32 v) := by
  simp only [declared, encodeHeader, putUint32, List.cons_append, List.nil_append,
    List.take_succ_cons, List.take_zero, List.drop_succ_cons, List.drop_zero, leNat, toByte,
    uint32, Prod.mk.injEq]
  omega

theorem encodeFileRecord_snd (t : Nat) (key value : List Byte) :
    (encodeFileRecord t key value).2 =
      encodeHeader t (uint32 key.length) (uint32 value.length) ++ (key ++ value) := rfl

theorem encodeFileRecord_fst (t : Nat) (key value : List Byte) :
    (encodeFileRecord t key value).1 = 12 + key.length + value.length := by
  simp [encodeFileRecord, headerSize]
  omega

theorem encodeFileRecord_length (t : Nat) (key value : List Byte) :
    (encodeFileRecord t key value).2.length = 12 + key.length + value.length := by
  simp [encodeFileRecord_snd, encodeHeader_length]
  omega

/-- Decoding an encoded record whose total size fits in 32 bits. -/
theorem decode_encode (t : Nat) (key value : List Byte)
    (h : 12 + key.length + value.length < 4294967296) :
    decodeFileRecord (encodeFileRecord t key value).2 = some (uint32 t, key, value) := by
  have hlen := encodeFileRecord_length t key value
  rw [decodeFileRecord_of_header _ (by omega), encodeFileRecord_snd,
    declared_encodeHeader_append]
  have hk : uint32 key.length = key.length := uint32_of_lt (by omega)
  have hv : uint32 value.length = value.length := uint32_of_lt (by omega)
  simp only [hk, hv]
  have h1 : uint32 (12 + key.length) = 12 + key.length := uint32_of_lt (by omega)
  have h2 : uint32 (12 + key.length + value.length) = 12 + key.length + value.length :=
    uint32_of_lt h
  rw [h1, h2, if_pos ⟨by omega, by omega, by
    simp [encodeHeader_length]; omega⟩]
  have e12 : (encodeHeader t key.length value.length).length = 12 := rfl
  rw [← e12, take_drop_mid, take_drop_last]

/-- Decoding an encoded record whose key is so long that `headerSize+keySize`
wraps in `uint32`. -/
theorem decode_encode_wrap (t : Nat) (key value : List Byte)
    (hk : key.length < 4294967296) (hw : 4294967284 ≤ key.length) :
    decodeFileRecord (encodeFileRecord t key value).2 = none := by
  have hlen := encodeFileRecord_length t key value
  rw [decodeFileRecord_of_header _ (by omega), encodeFileRecord_snd,
    declared_encodeHeader_append]
  have hk : uint32 key.length = key.length := uint32_of_lt (by omega)
  simp only [hk]
  have h1 : uint32 (12 + key.length) < 12 := by
    simp only [uint32]; omega
  rw [if_neg (fun hc => by omega)]

/-- C1 (as amended): for every uint32 timestamp and every key and value whose
record size 12 + len(key) + len(value) is below 2^32, decodeFileRecord applied
to the bytes of encodeFileRecord returns exactly (timestamp, key, value). -/
theorem decode_encode_roundtrip (timestamp : Nat) (key value : List Byte)
    (ht : timestamp < 4294967296)
    (h : 12 + key.length + value.length < 4294967296) :
    decodeFileRecord (encodeFileRecord timestamp key value).2 = some (timestamp, key, value) := by
  rw [decode_encode timestamp key value h, uint32_of_lt ht]

theorem decode_encode_roundtrip_witness :
    decodeFileRecord (encodeFileRecord 10 [104, 105] [33]).2 = some (10, [104, 105], [33]) :=
  decode_encode_roundtrip 10 [104, 105] [33] (by decide) (by decide)

/-- C1 fails as stated: a key of 2^32 - 12 bytes is shorter than 2^32, yet the
record encoded for it does not decode (the slice bound wraps to 0). -/
theorem decode_encode_roundtrip_fails :
    (0 : Nat) < 4294967296 ∧
    (List.replicate 4294967284 (0 : Byte)).length < 4294967296 ∧
    ([] : List Byte).length < 4294967296 ∧
    decodeFileRecord (encodeFileRecord 0 (List.replicate 4294967284 0) []).2 ≠
      some (0, List.replicate 4294967284 0, []) := by
  have hl : (List.replicate 4294967284 (0 : Byte)).length = 4294967284 :=
    List.length_replicate _ _
  refine ⟨by decide, by rw [hl]; decide, by decide, ?_⟩
  rw [decode_encode_wrap 0 _ [] (by rw [hl]; decide) (by rw [hl])]
  exact fun hc => Option.noConfusion hc

/-- On a buffer of fewer than 2^32 bytes whose capacity is its length,
`decodeFileRecord` fails exactly when the buffer is shorter than the header or
than the header and the lengths it declares. -/
theorem decodeFileRecord_framing (data : List Byte) (hlen : data.length < 4294967296) :
    (decodeFileRecord data = none ↔
      data.length < 12 ∨ data.length < 12 + (declared data).2.1 + (declared data).2.2) ∧
    (¬(data.length < 12 ∨ data.length < 12 + (declared data).2.1 + (declared data).2.2) →
      decodeFileRecord data = some ((declared data).1,
        (data.drop 12).take (declared data).2.1,
        (data.drop (12 + (declared data).2.1)).take (declared data).2.2)) := by
  by_cases h12 : data.length < 12
  · exact ⟨⟨fun _ => Or.inl h12, fun _ => decodeFileRecord_short data h12⟩,
      fun hn => absurd (Or.inl h12) hn⟩
  · have h12' : 12 ≤ data.length := by omega
    obtain ⟨_, hk, hv⟩ := declared_lt data h12'
    rw [decodeFileRecord_of_header data h12']
    generalize declared data = dec at hk hv ⊢
    obtain ⟨t, k, v⟩ := dec
    simp only at hk hv ⊢
    by_cases hfit : 12 + k + v ≤ data.length
    · have h1 : uint32 (12 + k) = 12 + k := uint32_of_lt (by omega)
      have h2 : uint32 (12 + k + v) = 12 + k + v := uint32_of_lt (by omega)
      rw [h1, h2, if_pos ⟨by omega, by omega, hfit⟩]
      refine ⟨⟨fun hc => Option.noConfusion hc, fun hc => by omega⟩, fun _ => ?_⟩
      rw [List.drop_take, List.drop_take, Nat.add_sub_cancel_left, Nat.add_sub_cancel_left]
    · have hno : ¬(12 ≤ uint32 (12 + k) ∧ uint32 (12 + k) ≤ uint32 (12 + k + v) ∧
          uint32 (12 + k + v) ≤ data.length) := by
        simp only [uint32]
        omega
      rw [if_neg hno]
      exact ⟨⟨fun _ => Or.inr (by omega), fun _ => rfl⟩, fun hn => absurd (Or.inr (by omega)) hn⟩

/-- A buffer of 2^32 bytes that declares a key of 2^32 - 12 bytes and an empty
value is long enough, yet `decodeFileRecord` fails on it. -/
theorem decodeFileRecord_framing_fails :
    ¬(decodeFileRecord (encodeHeader 7 4294967284 0 ++ List.replicate 4294967284 0) = none ↔
      (encodeHeader 7 4294967284 0 ++ List.replicate 4294967284 0).length < 12 ∨
      (encodeHeader 7 4294967284 0 ++ List.replicate 4294967284 0).length <
        12 + (declared (encodeHeader 7 4294967284 0 ++ List.replicate 4294967284 0)).2.1 +
          (declared (encodeHeader 7 4294967284 0 ++ List.replicate 4294967284 0)).2.2) := by
  have hl : (encodeHeader 7 4294967284 0 ++ List.replicate 4294967284 (0 : Byte)).length
      = 4294967296 := by
    rw [List.length_append, List.length_replicate, encodeHeader_length]
  have hd := declared_encodeHeader_append 7 4294967284 0 (List.replicate 4294967284 0)
  have hnone : decodeFileRecord (encodeHeader 7 4294967284 0 ++ List.replicate 4294967284 0)
      = none := by
    rw [decodeFileRecord_of_header _ (by rw [hl]; decide), hd]
    exact if_neg (fun hc => absurd hc.1 (by decide))
  rw [hl, hd]
  intro hiff
  have := hiff.1 hnone
  revert this
  decide

/-- On a slice that holds a header within its capacity, `decodeHeader` reads
the three numbers that its first twelve bytes declare. -/
theorem ByteSlice.decodeHeader_declared (array : List Byte) (hcap : 12 ≤ array.length) :
    ByteSlice.decodeHeader { array := array, len := 12 } = some (declared array) := by
  obtain ⟨b0, b1, b2, b3, b4, b5, b6, b7, b8, b9, b10, b11, rest, rfl⟩ :
      ∃ b0 b1 b2 b3 b4 b5 b6 b7 b8 b9 b10 b11 rest,
        array = b0 :: b1 :: b2 :: b3 :: b4 :: b5 :: b6 :: b7 :: b8 :: b9 :: b10 :: b11 :: rest := by
    match array, hcap with
    | b0 :: b1 :: b2 :: b3 :: b4 :: b5 :: b6 :: b7 :: b8 :: b9 :: b10 :: b11 :: rest, _ =>
      exact ⟨b0, b1, b2, b3, b4, b5, b6, b7, b8, b9, b10, b11, rest, rfl⟩
  simp [ByteSlice.decodeHeader, ByteSlice.slice, ByteSlice.cap, ByteSlice.getUint32,
    Cask.getUint32, declared, leNat]
  omega

/-- The function on slices is the function on lists applied to the bytes of the
slice up to its capacity: the length of the slice plays no part. -/
theorem decodeFileRecord_through_capacity (data : ByteSlice) :
    data.decodeFileRecord = decodeFileRecord data.array := by
  by_cases h12 : data.array.length < 12
  · rw [decodeFileRecord_short _ h12]
    have hs : data.slice 0 headerSize = none := by
      simp only [ByteSlice.slice, ByteSlice.cap, headerSize]
      rw [if_neg (by omega)]
    simp [ByteSlice.decodeFileRecord, hs]
  · have h12' : 12 ≤ data.array.length := by omega
    rw [decodeFileRecord_of_header _ h12']
    have hs : data.slice 0 headerSize = some { array := data.array, len := 12 } := by
      simp only [ByteSlice.slice, ByteSlice.cap, headerSize]
      rw [if_pos ⟨by omega, h12'⟩]
      rfl
    have hd := ByteSlice.decodeHeader_declared data.array h12'
    generalize declared data.array = dec at hd ⊢
    obtain ⟨t, k, v⟩ := dec
    unfold ByteSlice.decodeFileRecord
    rw [hs]
    simp only [Option.bind_eq_bind, Option.some_bind, Option.pure_def, hd]
    simp only [headerSize, ByteSlice.slice, ByteSlice.cap, ByteSlice.bytes]
    by_cases h1 : 12 ≤ uint32 (12 + k) ∧ uint32 (12 + k) ≤ data.array.length
    · by_cases h2 : uint32 (12 + k) ≤ uint32 (12 + k + v) ∧
          uint32 (12 + k + v) ≤ data.array.length
      · rw [if_pos h1, if_pos h2, if_pos ⟨h1.1, h2.1, h2.2⟩]
        simp only [Option.some_bind, List.drop_take]
      · have h3 : ¬(12 ≤ uint32 (12 + k) ∧ uint32 (12 + k) ≤ uint32 (12 + k + v) ∧
            uint32 (12 + k + v) ≤ data.array.length) := fun hc => h2 hc.2
        rw [if_pos h1, if_neg h2, if_neg h3]
        rfl
    · have h3 : ¬(12 ≤ uint32 (12 + k) ∧ uint32 (12 + k) ≤ uint32 (12 + k + v) ∧
          uint32 (12 + k + v) ≤ data.array.length) := fun hc => h1 ⟨hc.1, by omega⟩
      rw [if_neg h1, if_neg h3]
      rfl

/-- C8 (as amended): for every byte buffer whose capacity is its length and
which is shorter than 2^32 bytes, decodeFileRecord fails exactly when the buffer
is shorter than 12 bytes or shorter than 12 plus the declared key and value
lengths (an exact sum), and otherwise returns the declared timestamp, the next
key-length bytes as the key and the following value-length bytes as the value. -/
theorem buffer_framing (data : ByteSlice) (hcap : data.cap = data.len)
    (hlen : data.len < 4294967296) :
    (data.decodeFileRecord = none ↔
      data.len < 12 ∨
        data.len < 12 + (declared data.bytes).2.1 + (declared data.bytes).2.2) ∧
    (¬(data.len < 12 ∨
        data.len < 12 + (declared data.bytes).2.1 + (declared data.bytes).2.2) →
      data.decodeFileRecord = some ((declared data.bytes).1,
        (data.bytes.drop 12).take (declared data.bytes).2.1,
        (data.bytes.drop (12 + (declared data.bytes).2.1)).take (declared data.bytes).2.2)) := by
  have hb : data.bytes = data.array := by
    unfold ByteSlice.bytes
    rw [← hcap]
    exact List.take_length _
  have hl : data.array.length = data.len := hcap
  rw [decodeFileRecord_through_capacity, hb, ← hl]
  exact decodeFileRecord_framing data.array (by rw [hl]; exact hlen)

theorem buffer_framing_witness :
    ((ByteSlice.mk [1, 0, 0, 0, 1, 0, 0, 0, 1, 0, 0, 0, 97] 13).decodeFileRecord = none ↔
      (ByteSlice.mk [1, 0, 0, 0, 1, 0, 0, 0, 1, 0, 0, 0, 97] 13).len < 12 ∨
        (ByteSlice.mk [1, 0, 0, 0, 1, 0, 0, 0, 1, 0, 0, 0, 97] 13).len <
          12 + (declared (ByteSlice.mk [1, 0, 0, 0, 1, 0, 0, 0, 1, 0, 0, 0, 97] 13).bytes).2.1
            + (declared (ByteSlice.mk [1, 0, 0, 0, 1, 0, 0, 0, 1, 0, 0, 0, 97] 13).bytes).2.2) :=
  (buffer_framing (ByteSlice.mk [1, 0, 0, 0, 1, 0, 0, 0, 1, 0, 0, 0, 97] 13) (by decide)
    (by decide)).1

/-- C8 fails as stated, in two ways.  The first 13 bytes of the 14-byte record
of key `a` and value `b`, a slice with one byte of spare capacity, are shorter
than 12 + 1 + 1, yet decodeFileRecord returns the record: Go bounds a slice
expression by the capacity.  And a buffer of 2^32 bytes, its capacity, that
declares a key of 2^32 - 12 bytes and an empty value is long enough, yet
decodeFileRecord fails on it. -/
theorem buffer_framing_fails :
    ¬((ByteSlice.mk (encodeFileRecord 1 [97] [98]).2 13).decodeFileRecord = none ↔
      (ByteSlice.mk (encodeFileRecord 1 [97] [98]).2 13).len < 12 ∨
        (ByteSlice.mk (encodeFileRecord 1 [97] [98]).2 13).len <
          12 + (declared (ByteSlice.mk (encodeFileRecord 1 [97] [98]).2 13).bytes).2.1
            + (declared (ByteSlice.mk (encodeFileRecord 1 [97] [98]).2 13).bytes).2.2) ∧
    (ByteSlice.mk (encodeFileRecord 1 [97] [98]).2 13).decodeFileRecord =
      some (1, [97], [98]) ∧
    ¬((ByteSlice.mk (encodeHeader 7 4294967284 0 ++ List.replicate 4294967284 0)
          4294967296).decodeFileRecord = none ↔
      (4294967296 : Nat) < 12 ∨
        (4294967296 : Nat) <
          12 + (declared (encodeHeader 7 4294967284 0 ++ List.replicate 4294967284 0)).2.1 +
            (declared (encodeHeader 7 4294967284 0 ++ List.replicate 4294967284 0)).2.2) := by
  refine ⟨by decide, by decide, ?_⟩
  have hl : (encodeHeader 7 4294967284 0 ++ List.replicate 4294967284 (0 : Byte)).length
      = 4294967296 := by
    rw [List.length_append, List.length_replicate, encodeHeader_length]
  have h := decodeFileRecord_framing_fails
  rw [hl] at h
  rw [decodeFileRecord_through_capacity]
  exact h

/-- C9: for every uint32 timestamp and every key and value shorter than 2^32
bytes, the bytes of encodeFileRecord are four bytes that denote the timestamp in
little-endian order, four that denote len(key), four that denote len(value),
then the key bytes, then the value bytes, and nothing else. -/
theorem encodeFileRecord_layout (timestamp : Nat) (key value : List Byte)
    (ht : timestamp < 4294967296) (hk : key.length < 4294967296)
    (hv : value.length < 4294967296) :
    ∃ t k v : List Byte, t.length = 4 ∧ k.length = 4 ∧ v.length = 4 ∧
      leNat t = timestamp ∧ leNat k = key.length ∧ leNat v = value.length ∧
      (encodeFileRecord timestamp key value).2 = t ++ k ++ v ++ key ++ value := by
  refine ⟨putUint32 timestamp, putUint32 (uint32 key.length), putUint32 (uint32 value.length),
    rfl, rfl, rfl, ?_, ?_, ?_, ?_⟩
  · rw [leNat_putUint32, uint32_of_lt ht]
  · rw [leNat_putUint32, uint32_of_lt (uint32_lt _), uint32_of_lt hk]
  · rw [leNat_putUint32, uint32_of_lt (uint32_lt _), uint32_of_lt hv]
  · simp [encodeFileRecord, encodeHeader]

theorem encodeFileRecord_layout_witness :
    ∃ t k v : List Byte, t.length = 4 ∧ k.length = 4 ∧ v.length = 4 ∧
      leNat t = 258 ∧ leNat k = [(104 : Byte), 105].length ∧ leNat v = [(33 : Byte)].length ∧
      (encodeFileRecord 258 [104, 105] [33]).2 = t ++ k ++ v ++ [104, 105] ++ [33] :=
  encodeFileRecord_layout 258 [104, 105] [33] (by decide) (by decide) (by decide)

/-- C10: for every timestamp, key and value (empty ones included),
encodeFileRecord returns a size equal to the length of the data it returns, and
both equal 12 + len(key) + len(value). -/
theorem encodeFileRecord_size (timestamp : Nat) (key value : List Byte) :
    (encodeFileRecord timestamp key value).1 = (encodeFileRecord timestamp key value).2.length ∧
    (encodeFileRecord timestamp key value).2.length = 12 + key.length + value.length := by
  rw [encodeFileRecord_fst, encodeFileRecord_length]
  exact ⟨rfl, rfl⟩

/-! ## The log and the key directory -/

theorem encodeLog_length (log : List Record) : (encodeLog log).length = logSize log := by
  induction log with
  | nil => rfl
  | cons r rs ih =>
    simp only [encodeLog, logSize, List.length_append, encodeFileRecord_length, ih, Record.size]

theorem encodeLog_append (l1 l2 : List Record) :
    encodeLog (l1 ++ l2) = encodeLog l1 ++ encodeLog l2 := by
  induction l1 with
  | nil => rfl
  | cons r rs ih =>
    rw [List.cons_append]
    simp only [encodeLog, ih, List.append_assoc]

theorem logSize_append (l1 l2 : List Record) : logSize (l1 ++ l2) = logSize l1 + logSize l2 := by
  induction l1 with
  | nil => simp [logSize]
  | cons r rs ih =>
    rw [List.cons_append]
    simp only [logSize, ih]
    omega

theorem lastRecordFrom_append (pos : Nat) (l1 l2 : List Record) (key : List Byte) :
    lastRecordFrom pos (l1 ++ l2) key =
      match lastRecordFrom (pos + logSize l1) l2 key with
      | some found => some found
      | none => lastRecordFrom pos l1 key := by
  induction l1 generalizing pos with
  | nil =>
    simp only [List.nil_append, logSize, Nat.add_zero, lastRecordFrom]
    cases lastRecordFrom pos l2 key <;> rfl
  | cons r rs ih =>
    rw [List.cons_append]
    simp only [lastRecordFrom, ih, logSize, Nat.add_assoc]
    cases lastRecordFrom (pos + (r.size + logSize rs)) l2 key <;> rfl

/-- Where `lastRecordFrom` finds a record, the log holds its encoding. -/
theorem lastRecordFrom_located (pos : Nat) (log : List Record) (key : List Byte)
    (at_ : Nat) (r : Record) (h : lastRecordFrom pos log key = some (at_, r)) :
    r.key = key ∧ r ∈ log ∧ ∃ pre post : List Byte,
      encodeLog log = pre ++ ((encodeFileRecord r.timestamp r.key r.value).2 ++ post) ∧
      at_ = pos + pre.length := by
  induction log generalizing pos with
  | nil => simp [lastRecordFrom] at h
  | cons r0 rs ih =>
    simp only [lastRecordFrom] at h
    cases hrest : lastRecordFrom (pos + r0.size) rs key with
    | some found =>
      rw [hrest] at h
      simp only [Option.some.injEq] at h
      subst h
      obtain ⟨hk, hm, pre, post, he, hp⟩ := ih _ hrest
      refine ⟨hk, List.mem_cons_of_mem _ hm,
        (encodeFileRecord r0.timestamp r0.key r0.value).2 ++ pre, post, ?_, ?_⟩
      · simp only [encodeLog, he, List.append_assoc]
      · simp only [List.length_append, encodeFileRecord_length, hp, Record.size]
        omega
    | none =>
      rw [hrest] at h
      by_cases hk : r0.key = key
      · simp only [hk, if_true, Option.some.injEq, Prod.mk.injEq] at h
        obtain ⟨h1, h2⟩ := h
        subst h1 h2
        exact ⟨hk, List.mem_cons_self _ _, [], encodeLog rs, by simp [encodeLog], by simp⟩
      · simp [hk] at h

theorem lastValue_eq (cs : List SetCall) (pos : Nat) (key : List Byte) :
    (lastRecordFrom pos (cs.map SetCall.record) key).map (fun loc => loc.2.value) =
      lastValue cs key := by
  induction cs generalizing pos with
  | nil => rfl
  | cons c cs ih =>
    simp only [List.map_cons, lastRecordFrom, lastValue]
    rw [← ih (pos + c.record.size)]
    cases lastRecordFrom (pos + c.record.size) (cs.map SetCall.record) key with
    | some found => rfl
    | none =>
      by_cases hk : c.key = key
      · simp [SetCall.record, hk]
      · simp [SetCall.record, hk]

theorem mem_logSize {r : Record} {log : List Record} (h : r ∈ log) : r.size ≤ logSize log := by
  induction log with
  | nil => cases h
  | cons r0 rs ih =>
    simp only [logSize]
    rcases List.mem_cons.1 h with h1 | h1
    · subst h1; omega
    · have := ih h1; omega

theorem readFull_append (a b : List Byte) : readFull (a ++ b) a.length = some (a, b) := by
  simp [readFull]

/-- What `get` returns for a key whose last record the key directory indexes. -/
theorem get_of_indexed (d : Disk) (g : GocaskHandle) (name : String) (log : List Record)
    (key : List Byte) (f : File) (hf : g.currentFile = some f) (hname : f.name = name)
    (hopen : f.closed = false)
    (hd : d.read name = some (encodeLog log)) (hi : Indexed g.keyDir log)
    (hs : logSize log < 4294967296) (loc : Nat × Record)
    (hl : lastRecordFrom 0 log key = some loc) :
    getValue d g key = some loc.2.value := by
  obtain ⟨at_, r⟩ := loc
  have hfind := hi key
  rw [hl] at hfind
  cases hfe : g.keyDir.find key with
  | none => rw [hfe] at hfind; cases hfind
  | some e =>
    rw [hfe] at hfind
    simp only [Option.map_some', Option.some.injEq, Entry.view, locatedView,
      Prod.mk.injEq] at hfind
    obtain ⟨hpos, hsize, _⟩ := hfind
    obtain ⟨hk, hm, pre, post, henc, hat⟩ := lastRecordFrom_located 0 log key at_ r hl
    have hrs : r.size < 4294967296 := lt_of_le_of_lt (mem_logSize hm) hs
    have hdec := decode_encode r.timestamp r.key r.value (by
      simpa [Record.size] using hrs)
    have hcontent : d.content f.name = pre ++ ((encodeFileRecord r.timestamp r.key r.value).2
        ++ post) := by
      simp [Disk.content, hname, hd, henc]
    have hread : readFull ((d.content f.name).drop e.valuePos) e.valueSize =
        some ((encodeFileRecord r.timestamp r.key r.value).2, post) := by
      rw [hcontent, hpos, hat, Nat.zero_add, List.drop_left, hsize]
      have : r.size = (encodeFileRecord r.timestamp r.key r.value).2.length := by
        rw [encodeFileRecord_length]; rfl
      rw [this]
      exact readFull_append _ _
    simp only [getValue, get, hfe, hf, hopen, hread, hdec]
    simp

theorem writeAt_end (content data : List Byte) :
    writeAt content content.length data = content ++ data := by
  simp [writeAt]

theorem disk_read_write (d : Disk) (name : String) (content : List Byte) :
    (d.write name content).read name = some content := by
  simp [Disk.write, Disk.read]

theorem find_insert (m : KeyDir) (k : List Byte) (e : Entry) (key : List Byte) :
    (m.insert k e).find key = if k = key then some e else m.find key := rfl

theorem lastRecordFrom_snoc (log : List Record) (r : Record) (key : List Byte) :
    lastRecordFrom 0 (log ++ [r]) key =
      if r.key = key then some (logSize log, r) else lastRecordFrom 0 log key := by
  rw [lastRecordFrom_append]
  simp only [lastRecordFrom, Nat.zero_add]
  by_cases hk : r.key = key <;> simp [hk]

/-- One `set` on a consistent engine whose file has room for the record
appends the record and keeps the engine consistent. -/
theorem set_consistent (d : Disk) (g : GocaskHandle) (name : String) (log : List Record)
    (now : Int) (key value : List Byte) (hc : Consistent d g name log)
    (hs : logSize log + (12 + key.length + value.length) ≤ MaxFileSize) :
    ∃ d1 g1, set d g now key value = some (d1, g1) ∧
      Consistent d1 g1 name
        (log ++ [{ timestamp := (now % 4294967296).toNat, key := key, value := value }]) := by
  obtain ⟨⟨off, hf⟩, hd, hw, hi⟩ := hc
  have hcontent : d.content name = encodeLog log := by simp [Disk.content, hd]
  have hroom : ¬((encodeLog log).length +
      (encodeFileRecord (now % 4294967296).toNat key value).2.length > MaxFileSize) := by
    rw [encodeLog_length, encodeFileRecord_length]
    omega
  have hmax : MaxFileSize = 1073741824 := rfl
  have hwrite : write d g (encodeFileRecord (now % 4294967296).toNat key value).2 =
      some (d.write name (encodeLog log ++
          (encodeFileRecord (now % 4294967296).toNat key value).2),
        { g with currentFile := some (File.mk name ((encodeLog log).length +
            (encodeFileRecord (now % 4294967296).toNat key value).2.length) true false) }) := by
    simp only [write, isMaxFileSize, hf, Bool.false_eq_true, if_false, hcontent, hroom,
      if_true, writeAt_end]
  have hset : set d g now key value =
      some (d.write name (encodeLog log ++
          (encodeFileRecord (now % 4294967296).toNat key value).2),
        { g with
          currentFile := some (File.mk name ((encodeLog log).length +
            (encodeFileRecord (now % 4294967296).toNat key value).2.length) true false)
          keyDir := g.keyDir.insert key
            (newEntry (name ++ ".gocask.dat")
              (uint32 (encodeFileRecord (now % 4294967296).toNat key value).1)
              (uint32 g.writePosition) (now % 4294967296).toNat)
          writePosition := g.writePosition +
            (encodeFileRecord (now % 4294967296).toNat key value).1 }) := by
    simp only [set, hf, hwrite]
  refine ⟨_, _, hset, ?_⟩
  · refine ⟨⟨_, rfl⟩, ?_, ?_, ?_⟩
    · rw [disk_read_write, encodeLog_append]
      simp [encodeLog]
    · simp only [hw, logSize_append, logSize, Record.size, encodeFileRecord_fst]
      omega
    · intro k
      simp only [find_insert, lastRecordFrom_snoc]
      by_cases hk : key = k
      · subst hk
        simp only [if_true, Option.map_some', Entry.view, locatedView, newEntry, hw,
          encodeFileRecord_fst, Record.size]
        rw [uint32_of_lt (by omega), uint32_of_lt (by omega)]
      · simp only [hk, if_false]
        exact hi k

theorem logSize_map_cons (c : SetCall) (cs : List SetCall) :
    totalEncodedSize (c :: cs) = (12 + c.key.length + c.value.length) + totalEncodedSize cs := rfl

/-- A sequence of `set` calls on a consistent engine whose file has room for
all the records keeps the engine consistent. -/
theorem setAll_consistent (cs : List SetCall) (d : Disk) (g : GocaskHandle) (name : String)
    (log : List Record) (hc : Consistent d g name log)
    (hs : logSize log + totalEncodedSize cs ≤ MaxFileSize) :
    ∃ d1 g1, setAll d g cs = some (d1, g1) ∧
      Consistent d1 g1 name (log ++ cs.map SetCall.record) := by
  induction cs generalizing d g log with
  | nil => exact ⟨d, g, rfl, by simpa using hc⟩
  | cons c cs ih =>
    rw [logSize_map_cons] at hs
    obtain ⟨d1, g1, hset, hc1⟩ := set_consistent d g name log c.now c.key c.value hc (by omega)
    obtain ⟨d2, g2, hall, hc2⟩ := ih d1 g1 _ hc1 (by
      rw [logSize_append]
      simp only [logSize, Record.size]
      omega)
    refine ⟨d2, g2, ?_, ?_⟩
    · simp only [setAll, hset, hall]
    · simpa [SetCall.record, List.append_assoc] using hc2

theorem indexed_nil : Indexed [] [] := fun _ => rfl

/-- Opening a store on a file that does not exist or is empty gives a
consistent engine with an empty log. -/
theorem Gocask_fresh (d : Disk) (name : String) (h : d.content name = []) :
    Consistent (Gocask d name).1 (Gocask d name).2 name [] := by
  cases hr : d.read name with
  | none =>
    simp only [Gocask, isFileExists, hr, Option.isSome_none, Bool.false_eq_true, if_false]
    exact ⟨⟨0, rfl⟩, disk_read_write d name [], rfl, indexed_nil⟩
  | some c =>
    have hc : c = [] := by simpa [Disk.content, hr] using h
    subst hc
    simp only [Gocask, isFileExists, hr, Option.isSome_some, if_true, initializeKeyDir,
      List.length_nil, scanRecords]
    exact ⟨⟨0, rfl⟩, hr, rfl, indexed_nil⟩

/-- C2: for every sequence of set calls on a freshly created (empty) store whose
total encoded size stays within the maximum segment size, every call succeeds
and get returns, for every key set at least once, the value given by the last
set for that key (an empty value included). -/
theorem read_your_writes (d : Disk) (fileName : String) (cs : List SetCall)
    (hfresh : d.content fileName = []) (hsize : totalEncodedSize cs ≤ MaxFileSize) :
    ∃ d1 g1, setAll (Gocask d fileName).1 (Gocask d fileName).2 cs = some (d1, g1) ∧
      ∀ key value, lastValue cs key = some value → getValue d1 g1 key = some value := by
  obtain ⟨d1, g1, hall, ⟨off, hf⟩, hd, _, hi⟩ :=
    setAll_consistent cs _ _ fileName [] (Gocask_fresh d fileName hfresh) (by
      simpa [logSize] using hsize)
  refine ⟨d1, g1, hall, fun key value hv => ?_⟩
  rw [List.nil_append] at hd hi
  rw [← lastValue_eq cs 0 key] at hv
  cases hl : lastRecordFrom 0 (cs.map SetCall.record) key with
  | none => rw [hl] at hv; cases hv
  | some loc =>
    rw [hl] at hv
    simp only [Option.map_some', Option.some.injEq] at hv
    rw [← hv]
    exact get_of_indexed d1 g1 fileName _ key _ hf rfl rfl hd hi (by
      have hm : MaxFileSize = 1073741824 := rfl
      unfold totalEncodedSize at hsize
      omega) loc hl

theorem read_your_writes_witness :
    ∃ d1 g1, setAll (Gocask [] "test.db").1 (Gocask [] "test.db").2
        [⟨5, [110], [102, 114]⟩, ⟨6, [110], []⟩, ⟨7, [107], [118]⟩] = some (d1, g1) ∧
      ∀ key value,
        lastValue [⟨5, [110], [102, 114]⟩, ⟨6, [110], []⟩, ⟨7, [107], [118]⟩] key = some value →
        getValue d1 g1 key = some value :=
  read_your_writes [] "test.db" [⟨5, [110], [102, 114]⟩, ⟨6, [110], []⟩, ⟨7, [107], [118]⟩]
    (by decide) (by decide)

/-! ## Recovery -/

/-- The recovery loop stops at bytes that hold no complete record. -/
theorem scanRecords_incomplete (fuel : Nat) (tail : List Byte) (g : GocaskHandle)
    (name : String) (h : Incomplete tail) : scanRecords fuel tail g name = g := by
  cases fuel with
  | zero => rfl
  | succ fuel =>
    unfold scanRecords
    by_cases h12 : tail.length < 12
    · have : readFull tail headerSize = none := by
        simp only [readFull, headerSize]
        rw [if_neg (by omega)]
      simp only [this]
    · have h12' : 12 ≤ tail.length := by omega
      have hlt : tail.length < 12 + (declared tail).2.1 + (declared tail).2.2 := by
        rcases h with h | h
        · omega
        · exact h
      have hr : readFull tail headerSize = some (tail.take 12, tail.drop 12) := by
        simp only [readFull, headerSize]
        rw [if_pos h12']
      simp only [hr, decodeHeader_take tail h12']
      generalize declared tail = dec at hlt
      obtain ⟨t, k, v⟩ := dec
      simp only at hlt ⊢
      by_cases hk : k ≤ (tail.drop 12).length
      · have hrk : readFull (tail.drop 12) k = some ((tail.drop 12).take k,
            (tail.drop 12).drop k) := by
          simp only [readFull]
          rw [if_pos hk]
        have hrv : readFull ((tail.drop 12).drop k) v = none := by
          simp only [readFull]
          rw [if_neg]
          simp only [List.length_drop] at hk ⊢
          omega
        simp only [hrk, hrv]
      · have hrk : readFull (tail.drop 12) k = none := by
          simp only [readFull]
          rw [if_neg hk]
        simp only [hrk]

/-- One round of the recovery loop on a complete record. -/
theorem scanRecords_record (fuel : Nat) (r : Record) (tail : List Byte) (g : GocaskHandle)
    (name : String) (hk : r.key.length < 4294967296) (hv : r.value.length < 4294967296) :
    scanRecords (fuel + 1) ((encodeFileRecord r.timestamp r.key r.value).2 ++ tail) g name =
      scanRecords fuel tail (indexRecord name g r) name := by
  have e12 : (encodeHeader r.timestamp (uint32 r.key.length) (uint32 r.value.length)).length
      = 12 := rfl
  have hr : readFull ((encodeFileRecord r.timestamp r.key r.value).2 ++ tail) headerSize =
      some (encodeHeader r.timestamp (uint32 r.key.length) (uint32 r.value.length),
        r.key ++ (r.value ++ tail)) := by
    rw [encodeFileRecord_snd, List.append_assoc, List.append_assoc]
    exact readFull_append _ _
  have hrk : readFull (r.key ++ (r.value ++ tail)) r.key.length = some (r.key, r.value ++ tail) :=
    readFull_append _ _
  have hrv : readFull (r.value ++ tail) r.value.length = some (r.value, tail) :=
    readFull_append _ _
  rw [scanRecords]
  simp only [hr, decodeHeader_encodeHeader, uint32_of_lt (uint32_lt _), uint32_of_lt hk,
    uint32_of_lt hv, hrk, hrv]
  rfl

theorem length_le_logSize (log : List Record) : log.length ≤ logSize log := by
  induction log with
  | nil => exact Nat.le_refl _
  | cons r rs ih => simp only [List.length_cons, logSize, Record.size]; omega

/-- The recovery loop on a log followed by bytes that hold no complete
record indexes the records of the log one after the other. -/
theorem scanRecords_log (log : List Record) (fuel : Nat) (tail : List Byte) (g : GocaskHandle)
    (name : String) (hc : InContract log) (ht : Incomplete tail) (hf : log.length ≤ fuel) :
    scanRecords fuel (encodeLog log ++ tail) g name = log.foldl (indexRecord name) g := by
  induction log generalizing fuel g with
  | nil => exact scanRecords_incomplete fuel tail g name ht
  | cons r rs ih =>
    cases fuel with
    | zero => simp at hf
    | succ fuel =>
      have hr := hc r (List.mem_cons_self _ _)
      simp only [encodeLog, List.append_assoc, List.foldl_cons]
      rw [scanRecords_record fuel r _ g name hr.1 hr.2]
      exact ih fuel _ (fun x hx => hc x (List.mem_cons_of_mem _ hx))
        (by simpa using hf)

theorem incomplete_nil : Incomplete [] := Or.inl (by decide)

theorem declared_take (l : List Byte) (n : Nat) (h : 12 ≤ n) :
    declared (l.take n) = declared l := by
  unfold declared
  rw [List.take_take, Nat.min_eq_left (by omega), List.drop_take, List.take_take,
    Nat.min_eq_left (by omega), List.drop_take, List.take_take, Nat.min_eq_left (by omega)]

/-- A strict prefix of an encoded record holds no complete record. -/
theorem incomplete_of_cut (r : Record) (n : Nat) (hk : r.key.length < 4294967296)
    (hv : r.value.length < 4294967296)
    (hn : n < (encodeFileRecord r.timestamp r.key r.value).2.length) :
    Incomplete ((encodeFileRecord r.timestamp r.key r.value).2.take n) := by
  by_cases h12 : n < 12
  · left
    rw [List.length_take]
    omega
  · right
    have hd : declared ((encodeFileRecord r.timestamp r.key r.value).2.take n) =
        declared (encodeFileRecord r.timestamp r.key r.value).2 := by
      exact declared_take _ n (by omega)
    rw [hd, encodeFileRecord_snd, declared_encodeHeader_append, List.length_take]
    simp only [uint32_of_lt (uint32_lt _), uint32_of_lt hk, uint32_of_lt hv]
    rw [encodeFileRecord_length] at hn
    omega

theorem initializeKeyDir_log (d : Disk) (g : GocaskHandle) (name : String) (log : List Record)
    (tail : List Byte) (hc : InContract log) (ht : Incomplete tail) :
    initializeKeyDir (d.write name (encodeLog log ++ tail)) g name =
      log.foldl (indexRecord name) g := by
  simp only [initializeKeyDir, disk_read_write]
  refine scanRecords_log log _ tail g name hc ht ?_
  rw [List.length_append, encodeLog_length]
  exact Nat.le_trans (length_le_logSize log) (Nat.le_add_right _ _)

/-- C4: for every file made of complete encoded records (keys and values within
the 32-bit contract of the encoder) followed by a strict prefix of an encoded
record, recovery (a total function: it raises no error) produces exactly the
handle, key directory and write position included, that it produces for the
file holding only the complete records. -/
theorem truncated_tail_recovery (d : Disk) (g : GocaskHandle) (name : String)
    (log : List Record) (r : Record) (n : Nat)
    (hlog : InContract log) (hr : InContract [r])
    (hn : n < (encodeFileRecord r.timestamp r.key r.value).2.length) :
    initializeKeyDir
        (d.write name (encodeLog log ++ (encodeFileRecord r.timestamp r.key r.value).2.take n))
        g name
      = initializeKeyDir (d.write name (encodeLog log)) g name ∧
    (Gocask
        (d.write name (encodeLog log ++ (encodeFileRecord r.timestamp r.key r.value).2.take n))
        name).2
      = (Gocask (d.write name (encodeLog log)) name).2 := by
  have hr1 := hr r (List.mem_singleton_self r)
  have h1 := initializeKeyDir_log d g name log _ hlog (incomplete_of_cut r n hr1.1 hr1.2 hn)
  have h2 := initializeKeyDir_log d g name log [] hlog incomplete_nil
  rw [List.append_nil] at h2
  refine ⟨h1.trans h2.symm, ?_⟩
  have h3 := initializeKeyDir_log d
    { datafileDir := "", currentFile := none, writePosition := 0, keyDir := [] }
    name log _ hlog (incomplete_of_cut r n hr1.1 hr1.2 hn)
  have h4 := initializeKeyDir_log d
    { datafileDir := "", currentFile := none, writePosition := 0, keyDir := [] }
    name log [] hlog incomplete_nil
  rw [List.append_nil] at h4
  simp only [Gocask, isFileExists, disk_read_write, Option.isSome_some, if_true, h3, h4]

theorem truncated_tail_recovery_witness :
    initializeKeyDir
        (Disk.write [] "test.db" (encodeLog [⟨1, [107], [118]⟩, ⟨2, [107], []⟩] ++
          (encodeFileRecord 3 [97] [98, 99]).2.take 13))
        ⟨"", none, 0, []⟩ "test.db"
      = initializeKeyDir
        (Disk.write [] "test.db" (encodeLog [⟨1, [107], [118]⟩, ⟨2, [107], []⟩]))
        ⟨"", none, 0, []⟩ "test.db" ∧
    (Gocask
        (Disk.write [] "test.db" (encodeLog [⟨1, [107], [118]⟩, ⟨2, [107], []⟩] ++
          (encodeFileRecord 3 [97] [98, 99]).2.take 13))
        "test.db").2
      = (Gocask (Disk.write [] "test.db" (encodeLog [⟨1, [107], [118]⟩, ⟨2, [107], []⟩]))
        "test.db").2 :=
  truncated_tail_recovery [] ⟨"", none, 0, []⟩ "test.db" [⟨1, [107], [118]⟩, ⟨2, [107], []⟩]
    ⟨3, [97], [98, 99]⟩ 13 (by decide) (by decide) (by decide)

/-- Indexing the records of a log one after the other, as recovery does,
yields the write position and the key directory of the whole log. -/
theorem foldl_indexRecord (l2 l1 : List Record) (g : GocaskHandle) (name : String)
    (hw : g.writePosition = logSize l1) (hi : Indexed g.keyDir l1)
    (hs : logSize (l1 ++ l2) < 4294967296) (hts : ∀ r ∈ l2, r.timestamp < 4294967296) :
    (l2.foldl (indexRecord name) g).writePosition = logSize (l1 ++ l2) ∧
      Indexed (l2.foldl (indexRecord name) g).keyDir (l1 ++ l2) := by
  induction l2 generalizing l1 g with
  | nil => simpa using ⟨hw, hi⟩
  | cons r rs ih =>
    have hsz : logSize l1 + (r.size + logSize rs) < 4294967296 := by
      simpa [logSize_append, logSize] using hs
    have hrsize : r.size = 12 + r.key.length + r.value.length := rfl
    have hu : uint32 (headerSize + r.key.length + r.value.length) = r.size := by
      rw [headerSize, uint32_of_lt (by omega)]
      exact hrsize.symm
    have ht : uint32 r.timestamp = r.timestamp :=
      uint32_of_lt (hts r (List.mem_cons_self _ _))
    have hw1 : (indexRecord name g r).writePosition = logSize (l1 ++ [r]) := by
      simp only [indexRecord, hu, hw, logSize_append, logSize]
      omega
    have hi1 : Indexed (indexRecord name g r).keyDir (l1 ++ [r]) := by
      intro k
      simp only [indexRecord, find_insert, lastRecordFrom_snoc, hu, ht]
      by_cases hk : r.key = k
      · simp only [hk, if_true, Option.map_some', Entry.view, locatedView, newEntry, hw]
        rw [uint32_of_lt (by omega)]
      · simp only [hk, if_false]
        exact hi k
    have := ih (l1 ++ [r]) (indexRecord name g r) hw1 hi1
      (by simpa [List.append_assoc] using hs)
      (fun x hx => hts x (List.mem_cons_of_mem _ hx))
    simpa [List.append_assoc] using this

theorem inContract_of_logSize (log : List Record) (hs : logSize log < 4294967296) :
    InContract log := by
  intro r hr
  have := mem_logSize hr
  simp only [Record.size] at this
  omega

/-- Opening a store on a file that holds a log gives a consistent engine. -/
theorem Gocask_reopen (d : Disk) (name : String) (log : List Record)
    (hd : d.read name = some (encodeLog log)) (hs : logSize log < 4294967296)
    (hts : ∀ r ∈ log, r.timestamp < 4294967296) :
    Consistent (Gocask d name).1 (Gocask d name).2 name log := by
  have hscan : scanRecords (encodeLog log).length (encodeLog log)
      { datafileDir := "", currentFile := none, writePosition := 0, keyDir := [] } name =
      log.foldl (indexRecord name)
        { datafileDir := "", currentFile := none, writePosition := 0, keyDir := [] } := by
    have := scanRecords_log log (encodeLog log).length [] 
      { datafileDir := "", currentFile := none, writePosition := 0, keyDir := [] } name
      (inContract_of_logSize log hs) incomplete_nil (by
        rw [encodeLog_length]
        exact length_le_logSize log)
    rwa [List.append_nil] at this
  obtain ⟨hw, hi⟩ := foldl_indexRecord log []
    { datafileDir := "", currentFile := none, writePosition := 0, keyDir := [] } name rfl
    indexed_nil (by simpa using hs) hts
  rw [List.nil_append] at hw hi
  simp only [Gocask, isFileExists, hd, Option.isSome_some, if_true, initializeKeyDir, hscan]
  exact ⟨⟨0, rfl⟩, hd, hw, hi⟩

theorem timestamp_lt (now : Int) : (now % 4294967296).toNat < 4294967296 := by
  have h1 : now % 4294967296 < 4294967296 := Int.emod_lt_of_pos _ (by decide)
  have h2 : 0 ≤ now % 4294967296 := Int.emod_nonneg _ (by decide)
  omega

/-- C3: for every sequence of set calls on a freshly created store whose total
encoded size stays within the maximum segment size, every call succeeds, close
succeeds, and after reopening the store on the same file get returns, for every
key that was set, the value given by the last set for that key (an empty value
written as a delete included). -/
theorem durable_across_restart (d : Disk) (fileName : String) (cs : List SetCall)
    (hfresh : d.content fileName = []) (hsize : totalEncodedSize cs ≤ MaxFileSize) :
    ∃ d1 g1, setAll (Gocask d fileName).1 (Gocask d fileName).2 cs = some (d1, g1) ∧
      (close g1).2 = true ∧
      ∀ key value, lastValue cs key = some value →
        getValue (Gocask d1 fileName).1 (Gocask d1 fileName).2 key = some value := by
  obtain ⟨d1, g1, hall, ⟨off, hf⟩, hd, _, _⟩ :=
    setAll_consistent cs _ _ fileName [] (Gocask_fresh d fileName hfresh) (by
      simpa [logSize] using hsize)
  rw [List.nil_append] at hd
  have hlt : logSize (cs.map SetCall.record) < 4294967296 := by
    have hm : MaxFileSize = 1073741824 := rfl
    unfold totalEncodedSize at hsize
    omega
  have hts : ∀ r ∈ cs.map SetCall.record, r.timestamp < 4294967296 := by
    intro r hr
    obtain ⟨c, _, rfl⟩ := List.mem_map.1 hr
    exact timestamp_lt c.now
  obtain ⟨⟨off2, hf2⟩, hd2, _, hi2⟩ := Gocask_reopen d1 fileName _ hd hlt hts
  refine ⟨d1, g1, hall, ?_, fun key value hv => ?_⟩
  · simp [close, hf]
  · rw [← lastValue_eq cs 0 key] at hv
    cases hl : lastRecordFrom 0 (cs.map SetCall.record) key with
    | none => rw [hl] at hv; cases hv
    | some loc =>
      rw [hl] at hv
      simp only [Option.map_some', Option.some.injEq] at hv
      rw [← hv]
      exact get_of_indexed _ _ fileName _ key _ hf2 rfl rfl hd2 hi2 hlt loc hl

theorem durable_across_restart_witness :
    ∃ d1 g1, setAll (Gocask [] "test.db").1 (Gocask [] "test.db").2
        [⟨5, [110], [102, 114]⟩, ⟨6, [110], []⟩, ⟨7, [101], [121]⟩] = some (d1, g1) ∧
      (close g1).2 = true ∧
      ∀ key value,
        lastValue [⟨5, [110], [102, 114]⟩, ⟨6, [110], []⟩, ⟨7, [101], [121]⟩] key = some value →
        getValue (Gocask d1 "test.db").1 (Gocask d1 "test.db").2 key = some value :=
  durable_across_restart [] "test.db" [⟨5, [110], [102, 114]⟩, ⟨6, [110], []⟩, ⟨7, [101], [121]⟩]
    (by decide) (by decide)

/-! ## The write position after a truncated tail, and absent keys -/

/-- C5 (the code at the failing input): opened on a file of 27 bytes that ends
in a truncated record, the engine has write position 14; the next set records
offset 14 for its record, which is appended at offset 27, and leaves write
position 28 for a file of 41 bytes; get on the key just set then panics. -/
theorem writePosition_behind_truncated_tail :
    ((Gocask truncatedDisk "test.db").1.content "test.db").length = 27 ∧
    (Gocask truncatedDisk "test.db").2.writePosition = 14 ∧
    ∃ d1 g1,
      set (Gocask truncatedDisk "test.db").1 (Gocask truncatedDisk "test.db").2 9 [110] [120]
        = some (d1, g1) ∧
      g1.writePosition = 28 ∧ (d1.content "test.db").length = 41 ∧
      (g1.keyDir.find [110]).map Entry.valuePos = some 14 ∧
      (d1.content "test.db").drop 27 = (encodeFileRecord 9 [110] [120]).2 ∧
      getValue d1 g1 [110] = none := by
  refine ⟨by decide, by decide, _, _, rfl, ?_⟩
  decide

/-- C6 (as amended): in a store opened fresh and written by any sequence of sets
that stays within the maximum segment size, get returns the empty string for
every key that was never set, and it returns the same empty string for every
key whose most recent value is the empty string. -/
theorem get_absent_is_empty (d : Disk) (fileName : String) (cs : List SetCall)
    (hfresh : d.content fileName = []) (hsize : totalEncodedSize cs ≤ MaxFileSize) :
    ∃ d1 g1, setAll (Gocask d fileName).1 (Gocask d fileName).2 cs = some (d1, g1) ∧
      (∀ key, lastValue cs key = none → getValue d1 g1 key = some []) ∧
      (∀ key, lastValue cs key = some [] → getValue d1 g1 key = some []) := by
  obtain ⟨d1, g1, hall, ⟨off, hf⟩, hd, _, hi⟩ :=
    setAll_consistent cs _ _ fileName [] (Gocask_fresh d fileName hfresh) (by
      simpa [logSize] using hsize)
  rw [List.nil_append] at hd hi
  refine ⟨d1, g1, hall, fun key hv => ?_, fun key hv => ?_⟩
  · have hfind := hi key
    rw [← lastValue_eq cs 0 key] at hv
    cases hl : lastRecordFrom 0 (cs.map SetCall.record) key with
    | some loc => rw [hl] at hv; cases hv
    | none =>
      rw [hl] at hfind
      cases hfe : g1.keyDir.find key with
      | some e => rw [hfe] at hfind; cases hfind
      | none => simp only [getValue, get, hfe, Option.map_some']
  · rw [← lastValue_eq cs 0 key] at hv
    cases hl : lastRecordFrom 0 (cs.map SetCall.record) key with
    | none => rw [hl] at hv; cases hv
    | some loc =>
      rw [hl] at hv
      simp only [Option.map_some', Option.some.injEq] at hv
      rw [← hv]
      exact get_of_indexed d1 g1 fileName _ key _ hf rfl rfl hd hi (by
        have hm : MaxFileSize = 1073741824 := rfl
        unfold totalEncodedSize at hsize
        omega) loc hl

theorem get_absent_is_empty_witness :
    ∃ d1 g1, setAll (Gocask [] "test.db").1 (Gocask [] "test.db").2
        [⟨5, [110], [102]⟩, ⟨6, [110], []⟩] = some (d1, g1) ∧
      (∀ key, lastValue [⟨5, [110], [102]⟩, ⟨6, [110], []⟩] key = none →
        getValue d1 g1 key = some []) ∧
      (∀ key, lastValue [⟨5, [110], [102]⟩, ⟨6, [110], []⟩] key = some [] →
        getValue d1 g1 key = some []) :=
  get_absent_is_empty [] "test.db" [⟨5, [110], [102]⟩, ⟨6, [110], []⟩] (by decide) (by decide)

/-- C6 fails as stated: in a fresh store, get on the never-set key `a` returns
exactly what get returns on key `b` after set(b, ""): the empty string. -/
theorem get_absent_not_distinguished :
    getValue (Gocask [] "test.db").1 (Gocask [] "test.db").2 [97] =
      (set (Gocask [] "test.db").1 (Gocask [] "test.db").2 0 [98] []).bind
        (fun s => getValue s.1 s.2 [98]) := by
  decide

/-- C7 (the code at the failing input): opened on a file that ends in a
truncated record, the engine accepts set(k, "") for the key `k` of the complete
record, and get(k) then panics instead of returning the empty string, while get
on a key never written returns the empty string. -/
theorem delete_after_truncated_tail :
    (set (Gocask truncatedDisk "test.db").1 (Gocask truncatedDisk "test.db").2 9 [107] []).map
      (fun s => (getValue s.1 s.2 [107], getValue s.1 s.2 [122]))
      = some (none, some []) ∧
    getValue (Gocask truncatedDisk "test.db").1 (Gocask truncatedDisk "test.db").2 [107]
      = some [118] := by
  decide

/-! ## The header codec -/

/-- C16: for all uint32 values timestamp, keySize and valueSize, encodeHeader
returns exactly 12 bytes and decodeHeader applied to them returns
(timestamp, keySize, valueSize). -/
theorem header_roundtrip (timestamp keySize valueSize : Nat)
    (ht : timestamp < 4294967296) (hk : keySize < 4294967296)
    (hv : valueSize < 4294967296) :
    (encodeHeader timestamp keySize valueSize).length = 12 ∧
      decodeHeader (encodeHeader timestamp keySize valueSize) =
        some (timestamp, keySize, valueSize) := by
  refine ⟨encodeHeader_length _ _ _, ?_⟩
  rw [decodeHeader_encodeHeader, uint32_of_lt ht, uint32_of_lt hk, uint32_of_lt hv]

theorem header_roundtrip_witness :
    (encodeHeader 10 4294967295 0).length = 12 ∧
      decodeHeader (encodeHeader 10 4294967295 0) = some (10, 4294967295, 0) :=
  header_roundtrip 10 4294967295 0 (by decide) (by decide) (by decide)

/-! ## Segment names -/

theorem digitChar_spec :
    ∀ k, k < 10 → (Nat.digitChar k).isDigit = true ∧ (Nat.digitChar k).toNat - 48 = k := by
  decide

/-- The digits that `Nat.toDigitsCore` puts in front of `ds`: they are decimal
digits, there is at least one, and read as a number they give `n` back. -/
theorem toDigitsCore_spec (fuel : Nat) : ∀ (n : Nat) (ds : List Char), n < fuel →
    ∃ l, Nat.toDigitsCore 10 fuel n ds = l ++ ds ∧ l ≠ [] ∧ (∀ c ∈ l, c.isDigit = true) ∧
      ∀ acc, l.foldl (fun a c => 10 * a + (c.toNat - 48)) acc = acc * 10 ^ l.length + n := by
  induction fuel with
  | zero => intro n ds h; omega
  | succ fuel ih =>
    intro n ds h
    have hd := digitChar_spec (n % 10) (Nat.mod_lt _ (by decide))
    by_cases h0 : n / 10 = 0
    · refine ⟨[Nat.digitChar (n % 10)], ?_, by simp, ?_, ?_⟩
      · simp [Nat.toDigitsCore, h0]
      · intro c hc
        rw [List.mem_singleton.1 hc]
        exact hd.1
      · intro acc
        simp only [List.foldl, hd.2, List.length_singleton, pow_one]
        omega
    · obtain ⟨l, hl, hne, hdig, hval⟩ := ih (n / 10) (Nat.digitChar (n % 10) :: ds) (by omega)
      refine ⟨l ++ [Nat.digitChar (n % 10)], ?_, by simp, ?_, ?_⟩
      · simp [Nat.toDigitsCore, h0, hl]
      · intro c hc
        rcases List.mem_append.1 hc with hc | hc
        · exact hdig c hc
        · rw [List.mem_singleton.1 hc]
          exact hd.1
      · intro acc
        rw [List.foldl_append, hval]
        simp only [List.foldl, hd.2, List.length_append, List.length_singleton, pow_succ]
        nlinarith [Nat.div_add_mod n 10]

/-- The decimal string of `n`: a non-empty run of digits that reads as `n`. -/
theorem repr_spec (n : Nat) :
    (Nat.repr n).toList ≠ [] ∧ (∀ c ∈ (Nat.repr n).toList, c.isDigit = true) ∧
      (Nat.repr n).toList.foldl (fun a c => 10 * a + (c.toNat - 48)) 0 = n := by
  obtain ⟨l, hl, hne, hdig, hval⟩ := toDigitsCore_spec (n + 1) n [] (by omega)
  have : (Nat.repr n).toList = l := by
    simp [Nat.repr, Nat.toDigits, hl, List.asString]
  rw [this]
  exact ⟨hne, hdig, by simpa using hval 0⟩

theorem takeWhile_digits (l rest : List Char) (h : ∀ c ∈ l, c.isDigit = true) :
    (l ++ '.' :: rest).takeWhile Char.isDigit = l ∧
      (l ++ '.' :: rest).dropWhile Char.isDigit = '.' :: rest := by
  induction l with
  | nil => exact ⟨rfl, rfl⟩
  | cons c cs ih =>
    have hc := h c (List.mem_cons_self _ _)
    obtain ⟨h1, h2⟩ := ih (fun x hx => h x (List.mem_cons_of_mem _ hx))
    simp only [List.cons_append, List.takeWhile_cons, List.dropWhile_cons, hc, if_true, h1, h2,
      and_self]

/-- The pattern finds the digits in front of `.gocask.dat`. -/
theorem findSubmatch_digits (l : List Char) (hne : l ≠ []) (h : ∀ c ∈ l, c.isDigit = true) :
    findSubmatch (l ++ ".gocask.dat".toList) = some l := by
  obtain ⟨h1, h2⟩ := takeWhile_digits l "gocask.dat".toList h
  have hm : matchHere (l ++ ".gocask.dat".toList) = some l := by
    have hs : ".gocask.dat".toList = '.' :: "gocask.dat".toList := rfl
    simp only [matchHere, hs, h1, h2]
    rw [if_pos ⟨hne, by decide⟩]
  cases l with
  | nil => exact absurd rfl hne
  | cons c cs =>
    rw [List.cons_append] at hm ⊢
    simp only [findSubmatch, hm]

/-- What `createFilenameId` returns for the name of segment `n`. -/
theorem createFilenameId_segment (n : Nat) (hn : n + 1 ≤ 9223372036854775807) :
    createFilenameId (Nat.repr n ++ ".gocask.dat") = Res.ok (Nat.repr (n + 1)) := by
  obtain ⟨hne, hdig, hval⟩ := repr_spec n
  have hlist : (Nat.repr n ++ ".gocask.dat").toList =
      (Nat.repr n).toList ++ ".gocask.dat".toList := by
    simp [String.toList]
  have hnon : Nat.repr n ++ ".gocask.dat" ≠ "" := by
    intro hc
    have := congrArg String.toList hc
    rw [hlist] at this
    simp at this
  have hatoi : atoi (Nat.repr n).toList = n := by
    simp only [atoi, hval]
    omega
  have hsucc : intSucc n = ((n + 1 : Nat) : Int) := by
    simp only [intSucc]
    rw [if_pos (by omega)]
  simp only [createFilenameId, hnon, if_false, hlist, findSubmatch_digits _ hne hdig, hatoi,
    hsucc]
  rfl

/-- C20: for every natural number n with n+1 in the int range, createFilenameId
applied to the file name made of the decimal string of n and `.gocask.dat`
returns the decimal string of n+1 with no error, and createFilenameId applied to
the empty name returns an error. -/
theorem createFilenameId_next (n : Nat) (hn : n + 1 ≤ 9223372036854775807) :
    createFilenameId (Nat.repr n ++ ".gocask.dat") = Res.ok (Nat.repr (n + 1)) ∧
      createFilenameId "" = Res.err "File name not defined!" :=
  ⟨createFilenameId_segment n hn, rfl⟩

theorem createFilenameId_next_witness :
    createFilenameId (Nat.repr 9 ++ ".gocask.dat") = Res.ok (Nat.repr (9 + 1)) ∧
      createFilenameId "" = Res.err "File name not defined!" :=
  createFilenameId_next 9 (by decide)

/-! ## Rotation -/

theorem disk_read_write_ne (d : Disk) (a b : String) (content : List Byte) (h : a ≠ b) :
    (d.write a content).read b = d.read b := by
  simp [Disk.write, Disk.read, h]

theorem disk_content_write (d : Disk) (name : String) (content : List Byte) :
    (d.write name content).content name = content := by
  simp [Disk.content, disk_read_write]

theorem writeAt_nil (data : List Byte) : writeAt [] 0 data = data := by
  simp [writeAt]

/-- The state after a `set` that rotates: the record is the whole content of
the new file, and the entry points at offset 0. -/
theorem set_rotate (d : Disk) (g : GocaskHandle) (f : File) (now : Int)
    (key value : List Byte) (id : String) (hf : g.currentFile = some f)
    (hopen : f.closed = false) (hid : createFilenameId f.name = Res.ok id)
    (hbig : (d.content f.name).length + (12 + key.length + value.length) > MaxFileSize) :
    set d g now key value =
      some ((d.write (joinPath g.datafileDir (id ++ ".gocask.dat")) []).write
          (joinPath g.datafileDir (id ++ ".gocask.dat"))
          (encodeFileRecord (now % 4294967296).toNat key value).2,
        { datafileDir := g.datafileDir
          currentFile := some (File.mk (joinPath g.datafileDir (id ++ ".gocask.dat"))
            (0 + (encodeFileRecord (now % 4294967296).toNat key value).2.length) false false)
          writePosition := 0 + (encodeFileRecord (now % 4294967296).toNat key value).1
          keyDir := g.keyDir.insert key
            (newEntry (f.name ++ ".gocask.dat")
              (uint32 (encodeFileRecord (now % 4294967296).toNat key value).1)
              (uint32 0) (now % 4294967296).toNat) }) := by
  have hbig2 : (d.content f.name).length +
      (encodeFileRecord (now % 4294967296).toNat key value).2.length > MaxFileSize := by
    rw [encodeFileRecord_length]
    omega
  have hmax : isMaxFileSize d g (encodeFileRecord (now % 4294967296).toNat key value).2.length =
      Res.ok (d.write (joinPath g.datafileDir (id ++ ".gocask.dat")) [],
        { g with
          currentFile := some (File.mk (joinPath g.datafileDir (id ++ ".gocask.dat")) 0
            false false)
          writePosition := 0 }) := by
    simp only [isMaxFileSize, hf, hopen, Bool.false_eq_true, if_false, hbig2, if_true,
      createNewDataFile, hid]
  have hwrite : write d g (encodeFileRecord (now % 4294967296).toNat key value).2 =
      some ((d.write (joinPath g.datafileDir (id ++ ".gocask.dat")) []).write
          (joinPath g.datafileDir (id ++ ".gocask.dat"))
          (encodeFileRecord (now % 4294967296).toNat key value).2,
        { g with
          currentFile := some (File.mk (joinPath g.datafileDir (id ++ ".gocask.dat"))
            (0 + (encodeFileRecord (now % 4294967296).toNat key value).2.length) false false)
          writePosition := 0 }) := by
    simp only [write, hmax, Bool.false_eq_true, if_false, disk_content_write, writeAt_nil]
  simp only [set, hf, hwrite]

/-- The state after a `set` that does not rotate: the record is written at
the end of the file when the file was opened with `O_APPEND`, and at the file
position otherwise. -/
theorem set_no_rotate (d : Disk) (g : GocaskHandle) (f : File) (now : Int)
    (key value : List Byte) (hf : g.currentFile = some f) (hopen : f.closed = false)
    (hroom : (d.content f.name).length + (12 + key.length + value.length) ≤ MaxFileSize) :
    set d g now key value =
      some (d.write f.name
          (writeAt (d.content f.name)
            (if f.append = true then (d.content f.name).length else f.offset)
            (encodeFileRecord (now % 4294967296).toNat key value).2),
        { datafileDir := g.datafileDir
          currentFile := some (File.mk f.name
            ((if f.append = true then (d.content f.name).length else f.offset) +
              (encodeFileRecord (now % 4294967296).toNat key value).2.length) f.append f.closed)
          writePosition := g.writePosition +
            (encodeFileRecord (now % 4294967296).toNat key value).1
          keyDir := g.keyDir.insert key
            (newEntry (f.name ++ ".gocask.dat")
              (uint32 (encodeFileRecord (now % 4294967296).toNat key value).1)
              (uint32 g.writePosition) (now % 4294967296).toNat) }) := by
  have hroom2 : ¬((d.content f.name).length +
      (encodeFileRecord (now % 4294967296).toNat key value).2.length > MaxFileSize) := by
    rw [encodeFileRecord_length]
    omega
  have hmax : isMaxFileSize d g (encodeFileRecord (now % 4294967296).toNat key value).2.length =
      Res.ok (d, g) := by
    simp only [isMaxFileSize, hf, hopen, Bool.false_eq_true, if_false, hroom2]
  have hwrite : write d g (encodeFileRecord (now % 4294967296).toNat key value).2 =
      some (d.write f.name
          (writeAt (d.content f.name)
            (if f.append = true then (d.content f.name).length else f.offset)
            (encodeFileRecord (now % 4294967296).toNat key value).2),
        { g with
          currentFile := some (File.mk f.name
            ((if f.append = true then (d.content f.name).length else f.offset) +
              (encodeFileRecord (now % 4294967296).toNat key value).2.length)
            f.append f.closed) }) := by
    simp only [write, hmax, hf, hopen, Bool.false_eq_true, if_false]
  simp only [set, hf, hwrite]

theorem segment_name_ne (n : Nat) :
    Nat.repr (n + 1) ++ ".gocask.dat" ≠ Nat.repr n ++ ".gocask.dat" := by
  intro hc
  have h1 := congrArg String.toList hc
  have e1 : (Nat.repr (n + 1) ++ ".gocask.dat").toList =
      (Nat.repr (n + 1)).toList ++ ".gocask.dat".toList := by simp [String.toList]
  have e2 : (Nat.repr n ++ ".gocask.dat").toList =
      (Nat.repr n).toList ++ ".gocask.dat".toList := by simp [String.toList]
  rw [e1, e2] at h1
  have h2 := List.append_cancel_right h1
  have h3 := (repr_spec (n + 1)).2.2
  rw [h2, (repr_spec n).2.2] at h3
  omega

theorem joinPath_empty (file : String) : joinPath "" file = file := by
  simp [joinPath]

/-- C11 (as amended): for an open store whose active file is named by the
decimal string of n followed by `.gocask.dat`, with n+1 in the int range and the
maximum segment size 2^30: every set whose record makes active-size +
record-size exceed the maximum creates the segment of id n+1, whose whole
content is the record (written from offset 0), and leaves every other file, the
old segment included, unchanged; every set with active-size + record-size at
most the maximum (exactly the maximum included) creates no segment, keeps the
active file active and leaves every other file unchanged, and when the file
position is the end of the active file (always so for a file opened with
O_APPEND) the active file becomes its previous content followed by the record. -/
theorem segment_rotation (d : Disk) (g : GocaskHandle) (f : File) (n : Nat) (now : Int)
    (hf : g.currentFile = some f)
    (hname : f.name = Nat.repr n ++ ".gocask.dat") (hopen : f.closed = false)
    (hdir : g.datafileDir = "") (hn : n + 1 ≤ 9223372036854775807) :
    (∀ key value : List Byte,
      (d.content f.name).length + (12 + key.length + value.length) > MaxFileSize →
      ∃ d1 g1, set d g now key value = some (d1, g1) ∧
        g1.currentFile.map File.name = some (Nat.repr (n + 1) ++ ".gocask.dat") ∧
        d1.read (Nat.repr (n + 1) ++ ".gocask.dat") =
          some (encodeFileRecord (now % 4294967296).toNat key value).2 ∧
        (g1.keyDir.find key).map Entry.valuePos = some 0 ∧
        ∀ other, other ≠ Nat.repr (n + 1) ++ ".gocask.dat" → d1.read other = d.read other) ∧
    (∀ key value : List Byte,
      (d.content f.name).length + (12 + key.length + value.length) ≤ MaxFileSize →
      ∃ d1 g1, set d g now key value = some (d1, g1) ∧
        g1.currentFile.map File.name = some f.name ∧
        (∀ other, other ≠ f.name → d1.read other = d.read other) ∧
        (d1.read f.name).isSome = true ∧
        ((f.append = true ∨ f.offset = (d.content f.name).length) →
          d1.read f.name =
            some (d.content f.name ++
              (encodeFileRecord (now % 4294967296).toNat key value).2))) := by
  constructor
  · intro key value hbig
    have hid : createFilenameId f.name = Res.ok (Nat.repr (n + 1)) := by
      rw [hname]
      exact createFilenameId_segment n hn
    refine ⟨_, _, set_rotate d g f now key value _ hf hopen hid hbig, ?_, ?_, ?_, ?_⟩
    · simp only [hdir, joinPath_empty, Option.map_some']
    · simp only [hdir, joinPath_empty, disk_read_write]
    · simp only [find_insert, if_true, Option.map_some', newEntry]
      rfl
    · intro other ho
      simp only [hdir, joinPath_empty]
      rw [disk_read_write_ne _ _ _ _ (Ne.symm ho), disk_read_write_ne _ _ _ _ (Ne.symm ho)]
  · intro key value hroom
    refine ⟨_, _, set_no_rotate d g f now key value hf hopen hroom, ?_, ?_, ?_, ?_⟩
    · simp only [Option.map_some']
    · intro other ho
      exact disk_read_write_ne _ _ _ _ (Ne.symm ho)
    · rw [disk_read_write]
      rfl
    · intro hpos
      have hp : (if f.append = true then (d.content f.name).length else f.offset) =
          (d.content f.name).length := by
        rcases hpos with h | h
        · rw [if_pos h]
        · by_cases ha : f.append = true
          · rw [if_pos ha]
          · rw [if_neg ha, h]
      rw [disk_read_write, hp, writeAt_end]

theorem segment_rotation_witness :
    (∃ d1 g1, set (Gocask [] "7.gocask.dat").1 (Gocask [] "7.gocask.dat").2 5 [107]
          (List.replicate 1073741824 0) = some (d1, g1) ∧
        g1.currentFile.map File.name = some (Nat.repr (7 + 1) ++ ".gocask.dat") ∧
        d1.read (Nat.repr (7 + 1) ++ ".gocask.dat") =
          some (encodeFileRecord ((5 : Int) % 4294967296).toNat [107]
            (List.replicate 1073741824 0)).2 ∧
        (g1.keyDir.find [107]).map Entry.valuePos = some 0 ∧
        ∀ other, other ≠ Nat.repr (7 + 1) ++ ".gocask.dat" →
          d1.read other = (Gocask [] "7.gocask.dat").1.read other) ∧
    (∃ d1 g1, set (Gocask [] "7.gocask.dat").1 (Gocask [] "7.gocask.dat").2 5 [107] [118, 119]
          = some (d1, g1) ∧
        g1.currentFile.map File.name = some "7.gocask.dat" ∧
        (∀ other, other ≠ "7.gocask.dat" →
          d1.read other = (Gocask [] "7.gocask.dat").1.read other) ∧
        (d1.read "7.gocask.dat").isSome = true ∧
        ((true = true ∨ 0 = ((Gocask [] "7.gocask.dat").1.content "7.gocask.dat").length) →
          d1.read "7.gocask.dat" =
            some ((Gocask [] "7.gocask.dat").1.content "7.gocask.dat" ++
              (encodeFileRecord ((5 : Int) % 4294967296).toNat [107] [118, 119]).2))) :=
  ⟨(segment_rotation (Gocask [] "7.gocask.dat").1 (Gocask [] "7.gocask.dat").2
      ⟨"7.gocask.dat", 0, true, false⟩ 7 5 rfl (by decide) rfl rfl (by decide)).1 [107]
      (List.replicate 1073741824 0) (by
        rw [List.length_replicate]
        decide),
    (segment_rotation (Gocask [] "7.gocask.dat").1 (Gocask [] "7.gocask.dat").2
      ⟨"7.gocask.dat", 0, true, false⟩ 7 5 rfl (by decide) rfl rfl (by decide)).2 [107]
      [118, 119] (by decide)⟩

/-- A `set` of a value of 2^30 bytes on a fresh store rotates at once. -/
theorem set_big_rotates (name id : String) (now : Int) (key big : List Byte)
    (hid : createFilenameId name = Res.ok id) (hbig : big.length = 1073741824) :
    set (Gocask [] name).1 (Gocask [] name).2 now key big =
      some ((Disk.write (Gocask [] name).1 (id ++ ".gocask.dat") []).write (id ++ ".gocask.dat")
          (encodeFileRecord (now % 4294967296).toNat key big).2,
        { datafileDir := ""
          currentFile := some (File.mk (id ++ ".gocask.dat")
            (0 + (encodeFileRecord (now % 4294967296).toNat key big).2.length) false false)
          writePosition := 0 + (encodeFileRecord (now % 4294967296).toNat key big).1
          keyDir := KeyDir.insert [] key
            (newEntry (name ++ ".gocask.dat")
              (uint32 (encodeFileRecord (now % 4294967296).toNat key big).1)
              (uint32 0) (now % 4294967296).toNat) }) := by
  have h := set_rotate (Gocask [] name).1 (Gocask [] name).2 ⟨name, 0, true, false⟩ now key big
    id rfl rfl hid (by
      rw [hbig]
      have : MaxFileSize = 1073741824 := rfl
      omega)
  rw [h]
  simp only [Gocask, isFileExists, Disk.read, Option.isSome_none, Bool.false_eq_true, if_false,
    joinPath_empty]

/-- C11 fails as stated: on a fresh store whose active file is segment
9223372036854775807, the largest int, a set of a value of 2^30 bytes rotates to
a file named `-9223372036854775808.gocask.dat`, which is not segment n+1. -/
theorem segment_rotation_wraps :
    (∃ d1 g1,
      set (Gocask [] "9223372036854775807.gocask.dat").1
          (Gocask [] "9223372036854775807.gocask.dat").2 0 [107]
          (List.replicate 1073741824 0) = some (d1, g1) ∧
        g1.currentFile.map File.name = some "-9223372036854775808.gocask.dat") ∧
    "9223372036854775807.gocask.dat" = Nat.repr 9223372036854775807 ++ ".gocask.dat" ∧
    "-9223372036854775808.gocask.dat" ≠ Nat.repr (9223372036854775807 + 1) ++ ".gocask.dat" := by
  refine ⟨⟨_, _, set_big_rotates "9223372036854775807.gocask.dat" "-9223372036854775808" 0
    [107] _ (by decide) (List.length_replicate _ _), rfl⟩, by decide, by decide⟩

/-! ## Names without a segment id -/

/-- A `set` that needs a rotation aborts when `createFilenameId` does not
return an id: an error becomes `panic(err)` in `write`. -/
theorem set_rotate_aborts (d : Disk) (g : GocaskHandle) (f : File) (now : Int)
    (key value : List Byte) (hf : g.currentFile = some f) (hopen : f.closed = false)
    (hid : ∀ id, createFilenameId f.name ≠ Res.ok id)
    (hbig : (d.content f.name).length + (12 + key.length + value.length) > MaxFileSize) :
    set d g now key value = none := by
  have hbig2 : (d.content f.name).length +
      (encodeFileRecord (now % 4294967296).toNat key value).2.length > MaxFileSize := by
    rw [encodeFileRecord_length]
    omega
  have hcreate : ∀ x, createNewDataFile d g ≠ Res.ok x := by
    intro x
    simp only [createNewDataFile, hf]
    cases hc : createFilenameId f.name with
    | ok id => exact absurd hc (hid id)
    | err e => simp
    | panic => simp
  have hwrite : write d g (encodeFileRecord (now % 4294967296).toNat key value).2 = none := by
    simp only [write, isMaxFileSize, hf, hopen, Bool.false_eq_true, if_false, hbig2, if_true]
    cases hc : createNewDataFile d g with
    | ok x => exact absurd hc (hcreate x)
    | err e => rfl
    | panic => rfl
  simp only [set, hf, hwrite]

/-- The pattern matches every name that holds a run of digits followed by
`.gocask`. -/
theorem findSubmatch_some (pre digits post : List Char) (hne : digits ≠ [])
    (hdig : ∀ c ∈ digits, c.isDigit = true) :
    ∃ found, findSubmatch (pre ++ (digits ++ ('.' :: ("gocask".toList ++ post)))) =
      some found := by
  induction pre with
  | nil =>
    obtain ⟨h1, h2⟩ := takeWhile_digits digits ("gocask".toList ++ post) hdig
    have hm : matchHere (digits ++ ('.' :: ("gocask".toList ++ post))) = some digits := by
      simp only [matchHere, h1, h2]
      rw [if_pos ⟨hne, by
        simp [String.toList, List.isPrefixOf]⟩]
    cases digits with
    | nil => exact absurd rfl hne
    | cons c cs =>
      rw [List.nil_append, List.cons_append] at *
      exact ⟨c :: cs, by simp only [findSubmatch, hm]⟩
  | cons c cs ih =>
    obtain ⟨found, hfound⟩ := ih
    rw [List.cons_append]
    cases hm : matchHere (c :: (cs ++ (digits ++ ('.' :: ("gocask".toList ++ post))))) with
    | some x => exact ⟨x, by simp only [findSubmatch, hm]⟩
    | none => exact ⟨found, by simp only [findSubmatch, hm, hfound]⟩

/-- C17 (the code at the failing input): for the name `test.db`, which holds
no run of digits followed by `.gocask`, createFilenameId crashes (it indexes the
nil result of the match) instead of returning an error as it does for the empty
name, and a set of a value of 2^30 bytes on a fresh store opened as `test.db`,
which needs a rotation, aborts. -/
theorem createFilenameId_crashes :
    createFilenameId "test.db" = Res.panic ∧
    set (Gocask [] "test.db").1 (Gocask [] "test.db").2 0 [107]
      (List.replicate 1073741824 0) = none := by
  refine ⟨by decide, ?_⟩
  refine set_rotate_aborts _ _ ⟨"test.db", 0, true, false⟩ 0 [107] _ rfl rfl
    (fun id hc => by
      have hp : createFilenameId "test.db" = Res.panic := by decide
      rw [hp] at hc
      cases hc) ?_
  rw [List.length_replicate]
  have : MaxFileSize = 1073741824 := rfl
  omega

/-! ## Reading after a rotation -/

/-- When the bytes that the entry of a key delimits in the active file do not
decode, `get` panics. -/
theorem get_none_of_decode (d : Disk) (g : GocaskHandle) (f : File) (key : List Byte)
    (e : Entry) (data rest : List Byte) (hfind : g.keyDir.find key = some e)
    (hf : g.currentFile = some f) (hopen : f.closed = false)
    (hread : readFull ((d.content f.name).drop e.valuePos) e.valueSize = some (data, rest))
    (hdec : decodeFileRecord data = none) : getValue d g key = none := by
  simp only [getValue, get, hfind, hf, hopen, hread, hdec]
  simp

/-- The first fourteen bytes of a record whose value has 2^30 bytes do not
decode. -/
theorem decode_head_of_big (t : Nat) (key big : List Byte) (hk : key.length = 1)
    (hbig : big.length = 1073741824) :
    decodeFileRecord ((encodeFileRecord t key big).2.take 14) = none := by
  have hlen : ((encodeFileRecord t key big).2.take 14).length = 14 := by
    rw [List.length_take, encodeFileRecord_length, hk, hbig]
    rfl
  rw [decodeFileRecord_of_header _ (by rw [hlen]; decide), hlen, declared_take _ 14 (by decide),
    encodeFileRecord_snd, declared_encodeHeader_append, hk, hbig]
  refine if_neg (fun hc => ?_)
  have h3 := hc.2.2
  simp only [uint32] at h3
  omega

/-- A store opened fresh on segment 1, a small record for key `k`, then a
record with a value of 2^30 bytes, which rotates: `get` on `k` reads the new
active file and panics, while the record of `k` is intact in segment 1. -/
theorem stale_entry_after_rotation (big : List Byte) (hbig : big.length = 1073741824) :
    ∃ d1 g1 d2 g2,
      set (Gocask [] "1.gocask.dat").1 (Gocask [] "1.gocask.dat").2 5 [107] [118]
        = some (d1, g1) ∧
      getValue d1 g1 [107] = some [118] ∧
      set d1 g1 6 [98] big = some (d2, g2) ∧
      g2.currentFile.map File.name = some "2.gocask.dat" ∧
      d2.read "1.gocask.dat" = some (encodeFileRecord 5 [107] [118]).2 ∧
      (g2.keyDir.find [107]).map Entry.fileId = some "1.gocask.dat.gocask.dat" ∧
      getValue d2 g2 [107] = none := by
  have hmax : MaxFileSize = 1073741824 := rfl
  have h1 : set (Gocask [] "1.gocask.dat").1 (Gocask [] "1.gocask.dat").2 5 [107] [118] =
      some ([("1.gocask.dat", (encodeFileRecord 5 [107] [118]).2), ("1.gocask.dat", [])],
        ⟨"", some ⟨"1.gocask.dat", 14, true, false⟩, 14,
          [([107], ⟨"1.gocask.dat.gocask.dat", 14, 0, 5⟩)]⟩) := by
    decide
  have h2 := set_rotate
    [("1.gocask.dat", (encodeFileRecord 5 [107] [118]).2), ("1.gocask.dat", [])]
    ⟨"", some ⟨"1.gocask.dat", 14, true, false⟩, 14,
      [([107], ⟨"1.gocask.dat.gocask.dat", 14, 0, 5⟩)]⟩
    ⟨"1.gocask.dat", 14, true, false⟩ 6 [98] big "2" rfl rfl
    (by decide) (by rw [hbig, hmax]; simp)
  refine ⟨_, _, _, _, h1, by decide, h2, rfl, rfl, rfl, ?_⟩
  refine get_none_of_decode _ _ ⟨"2.gocask.dat",
      0 + (encodeFileRecord ((6 : Int) % 4294967296).toNat [98] big).2.length, false, false⟩
    [107] ⟨"1.gocask.dat.gocask.dat", 14, 0, 5⟩
    ((encodeFileRecord 6 [98] big).2.take 14) ((encodeFileRecord 6 [98] big).2.drop 14)
    rfl rfl rfl ?_ (decode_head_of_big 6 [98] big rfl hbig)
  have hc : Disk.content
      ((Disk.write
        [("1.gocask.dat", (encodeFileRecord 5 [107] [118]).2), ("1.gocask.dat", [])]
        (joinPath "" ("2" ++ ".gocask.dat")) []).write
        (joinPath "" ("2" ++ ".gocask.dat"))
        (encodeFileRecord ((6 : Int) % 4294967296).toNat [98] big).2)
      "2.gocask.dat" = (encodeFileRecord 6 [98] big).2 := rfl
  rw [hc, List.drop_zero]
  simp only [readFull]
  rw [if_pos (by rw [encodeFileRecord_length, hbig]; simp)]

/-- C12 (the code at the failing input): on a store opened fresh on segment 1,
after set(k, v) and a set of a value of 2^30 bytes that rotates to segment 2,
the record of k is intact in segment 1 and the entry of k names
`1.gocask.dat.gocask.dat`, but get(k) reads the active segment 2 and panics
instead of returning v. -/
theorem get_after_rotation_panics :
    ∃ d1 g1 d2 g2,
      set (Gocask [] "1.gocask.dat").1 (Gocask [] "1.gocask.dat").2 5 [107] [118]
        = some (d1, g1) ∧
      getValue d1 g1 [107] = some [118] ∧
      set d1 g1 6 [98] (List.replicate 1073741824 0) = some (d2, g2) ∧
      g2.currentFile.map File.name = some "2.gocask.dat" ∧
      d2.read "1.gocask.dat" = some (encodeFileRecord 5 [107] [118]).2 ∧
      (g2.keyDir.find [107]).map Entry.fileId = some "1.gocask.dat.gocask.dat" ∧
      getValue d2 g2 [107] = none :=
  stale_entry_after_rotation (List.replicate 1073741824 0) (List.length_replicate _ _)

/-! ## Writing after a rotation -/

/-- A `set` that rotates, on a view of the engine. -/
theorem snapshot_rotate (d : Disk) (g : GocaskHandle) (name : String) (offset : Nat)
    (append : Bool) (content : List Byte) (wp : Nat) (kd : KeyDir) (now : Int)
    (key value : List Byte) (id : String)
    (h : Snapshot d g name offset append content wp kd)
    (hid : createFilenameId name = Res.ok id)
    (hbig : content.length + (12 + key.length + value.length) > MaxFileSize) :
    ∃ d1 g1, set d g now key value = some (d1, g1) ∧
      Snapshot d1 g1 (id ++ ".gocask.dat") (12 + key.length + value.length) false
        (encodeFileRecord (now % 4294967296).toNat key value).2
        (12 + key.length + value.length)
        (kd.insert key (newEntry (name ++ ".gocask.dat")
          (uint32 (12 + key.length + value.length)) 0 (now % 4294967296).toNat)) := by
  obtain ⟨hf, hdir, hc, hw, hk⟩ := h
  refine ⟨_, _, set_rotate d g _ now key value id hf rfl hid (by rw [hc]; exact hbig), ?_⟩
  simp only [Snapshot, hdir, joinPath_empty, disk_content_write, encodeFileRecord_length,
    encodeFileRecord_fst, Nat.zero_add, hk, true_and]
  rfl

/-- A `set` that does not rotate, on a view of the engine. -/
theorem snapshot_write (d : Disk) (g : GocaskHandle) (name : String) (offset : Nat)
    (append : Bool) (content : List Byte) (wp : Nat) (kd : KeyDir) (now : Int)
    (key value : List Byte)
    (h : Snapshot d g name offset append content wp kd)
    (hroom : content.length + (12 + key.length + value.length) ≤ MaxFileSize) :
    ∃ d1 g1, set d g now key value = some (d1, g1) ∧
      Snapshot d1 g1 name
        ((if append = true then content.length else offset) + (12 + key.length + value.length))
        append
        (writeAt content (if append = true then content.length else offset)
          (encodeFileRecord (now % 4294967296).toNat key value).2)
        (wp + (12 + key.length + value.length))
        (kd.insert key (newEntry (name ++ ".gocask.dat")
          (uint32 (12 + key.length + value.length)) (uint32 wp) (now % 4294967296).toNat)) := by
  obtain ⟨hf, hdir, hc, hw, hk⟩ := h
  refine ⟨_, _, set_no_rotate d g _ now key value hf rfl (by rw [hc]; exact hroom), ?_⟩
  simp only [Snapshot, hdir, hc, hw, hk, disk_content_write, encodeFileRecord_length,
    encodeFileRecord_fst, true_and, and_self]

/-- A `get` that reads a record, on a view of the engine: the file position
moves behind the record read. -/
theorem snapshot_get (d : Disk) (g : GocaskHandle) (name : String) (offset : Nat)
    (append : Bool) (content : List Byte) (wp : Nat) (kd : KeyDir) (key : List Byte)
    (e : Entry) (data rest : List Byte) (t : Nat) (k v : List Byte)
    (h : Snapshot d g name offset append content wp kd)
    (hfind : kd.find key = some e)
    (hread : readFull (content.drop e.valuePos) e.valueSize = some (data, rest))
    (hdec : decodeFileRecord data = some (t, k, v)) :
    ∃ g1, get d g key = some (v, g1) ∧
      Snapshot d g1 name (e.valuePos + e.valueSize) append content wp kd := by
  obtain ⟨hf, hdir, hc, hw, hk⟩ := h
  refine ⟨{ g with currentFile := some (File.mk name (e.valuePos + e.valueSize) append false) },
    ?_, rfl, hdir, hc, hw, hk⟩
  simp only [get, hk, hfind, hf, hc, hread, hdec]
  simp

/-- A `get` whose read fails, on a view of the engine. -/
theorem snapshot_get_none (d : Disk) (g : GocaskHandle) (name : String) (offset : Nat)
    (append : Bool) (content : List Byte) (wp : Nat) (kd : KeyDir) (key : List Byte)
    (e : Entry) (h : Snapshot d g name offset append content wp kd)
    (hfind : kd.find key = some e)
    (hread : readFull (content.drop e.valuePos) e.valueSize = none) :
    getValue d g key = none := by
  obtain ⟨hf, hdir, hc, hw, hk⟩ := h
  simp only [getValue, get, hk, hfind, hf, hc, hread]
  simp

theorem snapshot_fresh (name : String) :
    Snapshot (Gocask [] name).1 (Gocask [] name).2 name 0 true [] 0 [] := by
  simp [Snapshot, Gocask, isFileExists, Disk.read, Disk.content, Disk.write]

/-- A store opened fresh on segment 1: a record with a value of 2^30 bytes
rotates to segment 2, the record of `b` rotates to segment 3, the record of `c`
follows it there; after get(b) has moved the file position back to 14, the
record of `d` is written over the record of `c`. -/
theorem overwrite_after_rotation (big : List Byte) (hbig : big.length = 1073741824) :
    ∃ dA gA dB gB dC gC gD dE gE,
      set (Gocask [] "1.gocask.dat").1 (Gocask [] "1.gocask.dat").2 5 [97] big
        = some (dA, gA) ∧
      set dA gA 6 [98] [120] = some (dB, gB) ∧
      set dB gB 7 [99] [121] = some (dC, gC) ∧
      gC.currentFile.map File.name = some "3.gocask.dat" ∧
      dC.content "3.gocask.dat" =
        (encodeFileRecord 6 [98] [120]).2 ++ (encodeFileRecord 7 [99] [121]).2 ∧
      get dC gC [98] = some ([120], gD) ∧
      set dC gD 8 [100] [122] = some (dE, gE) ∧
      gE.currentFile.map File.name = some "3.gocask.dat" ∧
      dE.content "3.gocask.dat" =
        (encodeFileRecord 6 [98] [120]).2 ++ (encodeFileRecord 8 [100] [122]).2 ∧
      getValue dE gE [99] = some [122] ∧
      getValue dE gE [100] = none := by
  have hmax : MaxFileSize = 1073741824 := rfl
  obtain ⟨dA, gA, hA, sA⟩ := snapshot_rotate _ _ _ _ _ _ _ _ 5 [97] big "2"
    (snapshot_fresh "1.gocask.dat") (by decide) (by rw [hbig, hmax]; simp)
  obtain ⟨dB, gB, hB, sB⟩ := snapshot_rotate _ _ _ _ _ _ _ _ 6 [98] [120] "3" sA (by decide)
    (by rw [encodeFileRecord_length, hbig, hmax]; simp)
  obtain ⟨dC, gC, hC, sC⟩ := snapshot_write _ _ _ _ _ _ _ _ 7 [99] [121] sB (by decide)
  obtain ⟨gD, hD, sD⟩ := snapshot_get _ _ _ _ _ _ _ _ [98]
    (newEntry "2.gocask.dat.gocask.dat" 14 0 6)
    (encodeFileRecord 6 [98] [120]).2 (encodeFileRecord 7 [99] [121]).2 6 [98] [120]
    sC rfl (by decide) (by decide)
  obtain ⟨dE, gE, hE, sE⟩ := snapshot_write _ _ _ _ _ _ _ _ 8 [100] [122] sD (by decide)
  obtain ⟨gF, hF, _⟩ := snapshot_get _ _ _ _ _ _ _ _ [99]
    (newEntry "3.gocask.dat.gocask.dat" 14 14 7)
    (encodeFileRecord 8 [100] [122]).2 [] 8 [100] [122]
    sE rfl (by decide) (by decide)
  have hG := snapshot_get_none _ _ _ _ _ _ _ _ [100]
    (newEntry "3.gocask.dat.gocask.dat" 14 28 8) sE rfl (by decide)
  refine ⟨dA, gA, dB, gB, dC, gC, gD, dE, gE, hA, hB, hC, ?_, ?_, hD, hE, ?_, ?_, ?_, hG⟩
  · rw [sC.1]; rfl
  · rw [show "3.gocask.dat" = "3" ++ ".gocask.dat" from rfl, sC.2.2.1]
    decide
  · rw [sE.1]; rfl
  · rw [show "3.gocask.dat" = "3" ++ ".gocask.dat" from rfl, sE.2.2.1]
    decide
  · simp only [getValue, hF, Option.map_some']

/-- C14 (the code at the failing input): on a store opened fresh on segment 1
and rotated twice, with the records of b and c in the active segment 3, a get(b)
followed by set(d, z) writes the record of d at offset 14, over the record of
c: the file keeps its 28 bytes instead of growing by 14, get(c) returns the
value z of d, and get(d) panics. -/
theorem set_overwrites_after_get :
    ∃ dA gA dB gB dC gC gD dE gE,
      set (Gocask [] "1.gocask.dat").1 (Gocask [] "1.gocask.dat").2 5 [97]
        (List.replicate 1073741824 0) = some (dA, gA) ∧
      set dA gA 6 [98] [120] = some (dB, gB) ∧
      set dB gB 7 [99] [121] = some (dC, gC) ∧
      gC.currentFile.map File.name = some "3.gocask.dat" ∧
      dC.content "3.gocask.dat" =
        (encodeFileRecord 6 [98] [120]).2 ++ (encodeFileRecord 7 [99] [121]).2 ∧
      get dC gC [98] = some ([120], gD) ∧
      set dC gD 8 [100] [122] = some (dE, gE) ∧
      gE.currentFile.map File.name = some "3.gocask.dat" ∧
      dE.content "3.gocask.dat" =
        (encodeFileRecord 6 [98] [120]).2 ++ (encodeFileRecord 8 [100] [122]).2 ∧
      getValue dE gE [99] = some [122] ∧
      getValue dE gE [100] = none :=
  overwrite_after_rotation (List.replicate 1073741824 0) (List.length_replicate _ _)

/-! ## Failures of the write step -/

theorem createNewDataFileF_noFaults (d : Disk) (g : GocaskHandle) :
    createNewDataFileF noFaults d g = createNewDataFile d g := by
  unfold createNewDataFileF createNewDataFile
  cases g.currentFile with
  | none => rfl
  | some f => cases createFilenameId f.name <;> rfl

theorem isMaxFileSizeF_noFaults (d : Disk) (g : GocaskHandle) (size : Nat) :
    isMaxFileSizeF noFaults d g size = isMaxFileSize d g size := by
  unfold isMaxFileSizeF isMaxFileSize
  simp only [createNewDataFileF_noFaults]

/-- On a disk that does not fail, `setF` returns exactly when `set` does, with
the same disk and engine. -/
theorem setF_noFaults (d : Disk) (g : GocaskHandle) (now : Int) (key value : List Byte)
    (d1 : Disk) (g1 : GocaskHandle) :
    setF noFaults d g now key value = Outcome.returned d1 g1 ↔
      set d g now key value = some (d1, g1) := by
  unfold setF set
  cases hf : g.currentFile with
  | none => simp
  | some f =>
    simp only [writeF, write, isMaxFileSizeF_noFaults]
    cases hm : isMaxFileSize d g (encodeFileRecord (now % 4294967296).toNat key value).2.length with
    | ok x =>
      obtain ⟨d2, g2⟩ := x
      simp only
      cases hf2 : g2.currentFile with
      | none => simp
      | some f2 =>
        by_cases hc : f2.closed = true
        · simp [hc]
        · simp [hc, noFaults]
    | err e => simp
    | panic => simp

theorem createNewDataFileF_frame (ft : Faults) (d : Disk) (g : GocaskHandle) (d1 : Disk)
    (g1 : GocaskHandle) (h : createNewDataFileF ft d g = Res.ok (d1, g1)) :
    g1.keyDir = g.keyDir := by
  unfold createNewDataFileF at h
  cases hf : g.currentFile with
  | none => rw [hf] at h; cases h
  | some f =>
    rw [hf] at h
    simp only at h
    cases hc : createFilenameId f.name with
    | panic => rw [hc] at h; cases h
    | err e => rw [hc] at h; cases h
    | ok temp =>
      rw [hc] at h
      simp only at h
      by_cases hcf : ft.createFails = true
      · rw [if_pos hcf] at h; cases h
      · rw [if_neg hcf] at h
        simp only [Res.ok.injEq, Prod.mk.injEq] at h
        rw [← h.2]

theorem isMaxFileSizeF_frame (ft : Faults) (d : Disk) (g : GocaskHandle) (size : Nat)
    (d1 : Disk) (g1 : GocaskHandle) (h : isMaxFileSizeF ft d g size = Res.ok (d1, g1)) :
    g1.keyDir = g.keyDir := by
  unfold isMaxFileSizeF at h
  cases hf : g.currentFile with
  | none =>
    rw [hf] at h
    exact createNewDataFileF_frame ft d g d1 g1 h
  | some f =>
    rw [hf] at h
    simp only at h
    by_cases hc : f.closed = true
    · rw [if_pos hc] at h; cases h
    · rw [if_neg hc] at h
      by_cases hb : (d.content f.name).length + size > MaxFileSize
      · rw [if_pos hb] at h
        exact createNewDataFileF_frame ft d g d1 g1 h
      · rw [if_neg hb] at h
        simp only [Res.ok.injEq, Prod.mk.injEq] at h
        rw [← h.2]

/-- The write step never returns an error: it has no result. -/
theorem writeF_not_reported (ft : Faults) (d : Disk) (g : GocaskHandle) (data : List Byte)
    (e : String) (d1 : Disk) (g1 : GocaskHandle) :
    writeF ft d g data ≠ Outcome.reported e d1 g1 := by
  unfold writeF
  cases isMaxFileSizeF ft d g data.length with
  | err e => simp
  | panic => simp
  | ok x =>
    obtain ⟨d2, g2⟩ := x
    simp only
    cases g2.currentFile with
    | none => simp
    | some f =>
      simp only
      by_cases hc : f.closed = true
      · simp [hc]
      · rw [if_neg hc]
        cases ft.writeFails with
        | some n => simp
        | none =>
          simp only
          by_cases hs : ft.syncFails = true
          · simp [hs]
          · simp [hs]

/-- The write step, when it panics, leaves the key directory as it was; when
the panic comes from the rotation check, the disk and the engine are as they
were; and an error of the rotation check is the value of the panic. -/
theorem writeF_panicked (ft : Faults) (d : Disk) (g : GocaskHandle) (data : List Byte)
    (v : Option String) (d1 : Disk) (g1 : GocaskHandle)
    (h : writeF ft d g data = Outcome.panicked v d1 g1) :
    g1.keyDir = g.keyDir ∧
      ((∀ x, isMaxFileSizeF ft d g data.length ≠ Res.ok x) → d1 = d ∧ g1 = g) ∧
      (∀ e, isMaxFileSizeF ft d g data.length = Res.err e → v = some e) := by
  unfold writeF at h
  cases hm : isMaxFileSizeF ft d g data.length with
  | err e =>
    rw [hm] at h
    simp only [Outcome.panicked.injEq] at h
    refine ⟨by rw [← h.2.2], fun _ => ⟨h.2.1.symm, h.2.2.symm⟩, fun e2 he2 => ?_⟩
    simp only [Res.err.injEq] at he2
    rw [← h.1, he2]
  | panic =>
    rw [hm] at h
    simp only [Outcome.panicked.injEq] at h
    exact ⟨by rw [← h.2.2], fun _ => ⟨h.2.1.symm, h.2.2.symm⟩, fun e2 he2 => by cases he2⟩
  | ok x =>
    obtain ⟨d2, g2⟩ := x
    have hk := isMaxFileSizeF_frame ft d g data.length d2 g2 hm
    refine ⟨?_, fun hno => absurd rfl (hno (d2, g2)), fun e2 he2 => by cases he2⟩
    rw [hm] at h
    simp only at h
    cases hf : g2.currentFile with
    | none =>
      rw [hf] at h
      simp only [Outcome.panicked.injEq] at h
      rw [← h.2.2, hk]
    | some f =>
      rw [hf] at h
      simp only at h
      by_cases hc : f.closed = true
      · rw [if_pos hc] at h
        simp only [Outcome.panicked.injEq] at h
        rw [← h.2.2, hk]
      · rw [if_neg hc] at h
        cases hw : ft.writeFails with
        | some n =>
          rw [hw] at h
          simp only [Outcome.panicked.injEq] at h
          rw [← h.2.2]
          exact hk
        | none =>
          rw [hw] at h
          simp only at h
          by_cases hs : ft.syncFails = true
          · rw [if_pos hs] at h
            simp only [Outcome.panicked.injEq] at h
            rw [← h.2.2]
            exact hk
          · rw [if_neg hs] at h
            cases h

/-- The write step returns only when the rotation check, the write and the
sync all succeed. -/
theorem writeF_returned (ft : Faults) (d : Disk) (g : GocaskHandle) (data : List Byte)
    (d1 : Disk) (g1 : GocaskHandle) (h : writeF ft d g data = Outcome.returned d1 g1) :
    (∃ x, isMaxFileSizeF ft d g data.length = Res.ok x) ∧ ft.writeFails = none ∧
      ft.syncFails = false := by
  unfold writeF at h
  cases hm : isMaxFileSizeF ft d g data.length with
  | err e => rw [hm] at h; cases h
  | panic => rw [hm] at h; cases h
  | ok x =>
    obtain ⟨d2, g2⟩ := x
    refine ⟨⟨_, rfl⟩, ?_⟩
    rw [hm] at h
    simp only at h
    cases hf : g2.currentFile with
    | none => rw [hf] at h; cases h
    | some f =>
      rw [hf] at h
      simp only at h
      by_cases hc : f.closed = true
      · rw [if_pos hc] at h; cases h
      · rw [if_neg hc] at h
        cases hw : ft.writeFails with
        | some n => rw [hw] at h; cases h
        | none =>
          rw [hw] at h
          simp only at h
          by_cases hs : ft.syncFails = true
          · rw [if_pos hs] at h; cases h
          · exact ⟨rfl, by simpa using hs⟩

/-- The rotation check returns the error of `os.Create`. -/
theorem isMaxFileSizeF_create_fails (ft : Faults) (d : Disk) (g : GocaskHandle) (f : File)
    (size : Nat) (id : String) (hf : g.currentFile = some f) (hopen : f.closed = false)
    (hid : createFilenameId f.name = Res.ok id) (hft : ft.createFails = true)
    (hbig : (d.content f.name).length + size > MaxFileSize) :
    isMaxFileSizeF ft d g size = Res.err "create" := by
  simp only [isMaxFileSizeF, hf, hopen, Bool.false_eq_true, if_false, hbig, if_true,
    createNewDataFileF, hid, hft]

/-- C13 (as amended): for every engine state and every set whose write step
fails (the rotation check does not succeed, or the file write or the sync
fails), set does not report the failure as an error: it aborts in a panic, whose
value is the error when the rotation check returned one, and the key directory
is as it was; when the failure is that of the rotation check, the active file,
the write position and the disk are as they were too. -/
theorem set_failure (ft : Faults) (d : Disk) (g : GocaskHandle) (now : Int)
    (key value : List Byte)
    (hfail :
      (∀ x, isMaxFileSizeF ft d g
        (encodeFileRecord (now % 4294967296).toNat key value).2.length ≠ Res.ok x) ∨
      ft.writeFails ≠ none ∨ ft.syncFails = true) :
    ∃ v d1 g1, setF ft d g now key value = Outcome.panicked v d1 g1 ∧
      g1.keyDir = g.keyDir ∧
      ((∀ x, isMaxFileSizeF ft d g
          (encodeFileRecord (now % 4294967296).toNat key value).2.length ≠ Res.ok x) →
        g1.currentFile = g.currentFile ∧ g1.writePosition = g.writePosition ∧ d1 = d) ∧
      (∀ e, isMaxFileSizeF ft d g
          (encodeFileRecord (now % 4294967296).toNat key value).2.length = Res.err e →
        v = some e) := by
  cases hf : g.currentFile with
  | none =>
    refine ⟨none, d, g, ?_, rfl, fun _ => ⟨hf, rfl, rfl⟩, fun e he => ?_⟩
    · simp only [setF, hf]
    · simp [isMaxFileSizeF, createNewDataFileF, hf] at he
  | some f =>
    cases hw : writeF ft d g (encodeFileRecord (now % 4294967296).toNat key value).2 with
    | returned d1 g1 =>
      obtain ⟨⟨x, hx⟩, h2, h3⟩ := writeF_returned ft d g _ d1 g1 hw
      rcases hfail with h | h | h
      · exact absurd hx (h x)
      · exact absurd h2 h
      · rw [h3] at h; cases h
    | reported e d1 g1 => exact absurd hw (writeF_not_reported ft d g _ e d1 g1)
    | panicked v d1 g1 =>
      obtain ⟨hk, hrot, herr⟩ := writeF_panicked ft d g _ v d1 g1 hw
      refine ⟨v, d1, g1, ?_, hk, fun hno => ?_, herr⟩
      · simp only [setF, hf, hw]
      · obtain ⟨hd, hg⟩ := hrot hno
        rw [hd, hg, hf]
        exact ⟨rfl, rfl, rfl⟩

theorem set_failure_witness :
    ∃ v d1 g1,
      setF ⟨true, none, false⟩ (Gocask [] "1.gocask.dat").1 (Gocask [] "1.gocask.dat").2 5
        [107] (List.replicate 1073741824 0) = Outcome.panicked v d1 g1 ∧
      g1.keyDir = (Gocask [] "1.gocask.dat").2.keyDir ∧
      g1.currentFile = (Gocask [] "1.gocask.dat").2.currentFile ∧
      g1.writePosition = (Gocask [] "1.gocask.dat").2.writePosition ∧
      d1 = (Gocask [] "1.gocask.dat").1 ∧
      v = some "create" := by
  have hmax : isMaxFileSizeF ⟨true, none, false⟩ (Gocask [] "1.gocask.dat").1
      (Gocask [] "1.gocask.dat").2
      (encodeFileRecord ((5 : Int) % 4294967296).toNat [107]
        (List.replicate 1073741824 0)).2.length = Res.err "create" :=
    isMaxFileSizeF_create_fails _ _ _ ⟨"1.gocask.dat", 0, true, false⟩ _ "2" rfl rfl
      (by decide) rfl (by
        rw [encodeFileRecord_length, List.length_replicate]
        decide)
  have hno : ∀ x, isMaxFileSizeF ⟨true, none, false⟩ (Gocask [] "1.gocask.dat").1
      (Gocask [] "1.gocask.dat").2
      (encodeFileRecord ((5 : Int) % 4294967296).toNat [107]
        (List.replicate 1073741824 0)).2.length ≠ Res.ok x := by
    intro x hx
    rw [hmax] at hx
    cases hx
  obtain ⟨v, d1, g1, h1, h2, h3, h4⟩ :=
    set_failure ⟨true, none, false⟩ (Gocask [] "1.gocask.dat").1 (Gocask [] "1.gocask.dat").2 5
      [107] (List.replicate 1073741824 0) (Or.inl hno)
  exact ⟨v, d1, g1, h1, h2, (h3 hno).1, (h3 hno).2.1, (h3 hno).2.2, h4 "create" hmax⟩

/-- C13 fails as stated: on a fresh store, a set whose sync fails does not
report the failure as an error; it panics, after the record is in the file. -/
theorem set_failure_is_a_panic :
    ∃ d1 g1,
      setF ⟨false, none, true⟩ (Gocask [] "test.db").1 (Gocask [] "test.db").2 5 [107] [118]
        = Outcome.panicked (some "sync") d1 g1 ∧
      d1.read "test.db" = some (encodeFileRecord 5 [107] [118]).2 ∧
      ∀ e d2 g2,
        setF ⟨false, none, true⟩ (Gocask [] "test.db").1 (Gocask [] "test.db").2 5 [107] [118]
          ≠ Outcome.reported e d2 g2 := by
  have h : setF ⟨false, none, true⟩ (Gocask [] "test.db").1 (Gocask [] "test.db").2 5 [107]
      [118] = Outcome.panicked (some "sync")
        [("test.db", (encodeFileRecord 5 [107] [118]).2), ("test.db", [])]
        ⟨"", some ⟨"test.db", 14, true, false⟩, 0, []⟩ := by
    decide
  refine ⟨_, _, h, by decide, fun e d2 g2 hc => ?_⟩
  rw [h] at hc
  cases hc

/-! ## The key directory and the log -/

theorem lastRecordFrom_none (pos : Nat) (log : List Record) (key : List Byte) :
    lastRecordFrom pos log key = none ↔ ∀ r ∈ log, r.key ≠ key := by
  induction log generalizing pos with
  | nil => simp [lastRecordFrom]
  | cons r0 rs ih =>
    simp only [lastRecordFrom, List.mem_cons, forall_eq_or_imp]
    cases hrest : lastRecordFrom (pos + r0.size) rs key with
    | some found =>
      have := (ih (pos + r0.size)).not.1 (by rw [hrest]; simp)
      simp only [reduceCtorEq, false_iff, not_and]
      exact fun _ => this
    | none =>
      have := (ih (pos + r0.size)).1 hrest
      by_cases hk : r0.key = key
      · simp [hk]
      · simp only [hk, if_false, true_iff]
        exact ⟨hk, this⟩

/-- Where `lastRecordFrom` finds a record, the log splits into the records in
front of it, whose size is its offset, the record, and records of other keys. -/
theorem lastRecordFrom_split (pos : Nat) (log : List Record) (key : List Byte)
    (loc : Nat × Record) (h : lastRecordFrom pos log key = some loc) :
    ∃ pre post, log = pre ++ loc.2 :: post ∧ loc.2.key = key ∧ (∀ x ∈ post, x.key ≠ key) ∧
      loc.1 = pos + logSize pre := by
  induction log generalizing pos with
  | nil => simp [lastRecordFrom] at h
  | cons r0 rs ih =>
    simp only [lastRecordFrom] at h
    cases hrest : lastRecordFrom (pos + r0.size) rs key with
    | some found =>
      rw [hrest] at h
      simp only [Option.some.injEq] at h
      subst h
      obtain ⟨pre, post, hl, hk, hpost, hat⟩ := ih _ hrest
      refine ⟨r0 :: pre, post, by rw [hl]; rfl, hk, hpost, ?_⟩
      simp only [logSize, hat]
      omega
    | none =>
      rw [hrest] at h
      by_cases hk : r0.key = key
      · simp only [hk, if_true, Option.some.injEq] at h
        subst h
        exact ⟨[], rs, rfl, hk, (lastRecordFrom_none _ rs key).1 hrest, by simp [logSize]⟩
      · simp [hk] at h

/-- What `Indexed` says of one key, in terms of the log alone. -/
theorem indexed_describes (m : KeyDir) (log : List Record) (h : Indexed m log)
    (key : List Byte) :
    match m.find key with
    | none => ∀ r ∈ log, r.key ≠ key
    | some e => ∃ pre r post, log = pre ++ r :: post ∧ r.key = key ∧
        (∀ x ∈ post, x.key ≠ key) ∧ e.valuePos = logSize pre ∧ e.valueSize = r.size ∧
        e.timestamp = r.timestamp := by
  have hk := h key
  cases hf : m.find key with
  | none =>
    rw [hf] at hk
    cases hl : lastRecordFrom 0 log key with
    | none => exact (lastRecordFrom_none 0 log key).1 hl
    | some loc => rw [hl] at hk; cases hk
  | some e =>
    rw [hf] at hk
    cases hl : lastRecordFrom 0 log key with
    | none => rw [hl] at hk; cases hk
    | some loc =>
      rw [hl] at hk
      simp only [Option.map_some', Option.some.injEq, Entry.view, locatedView,
        Prod.mk.injEq] at hk
      obtain ⟨pre, post, hlog, hkey, hpost, hat⟩ := lastRecordFrom_split 0 log key loc hl
      exact ⟨pre, loc.2, post, hlog, hkey, hpost, by omega, hk.2.1, hk.2.2⟩

theorem encodeLog_eq_nil (log : List Record) (h : encodeLog log = []) : log = [] := by
  cases log with
  | nil => rfl
  | cons r rs =>
    have := congrArg List.length h
    simp only [encodeLog, List.length_append, encodeFileRecord_length, List.length_nil] at this
    omega

/-- Opening a store on a file that holds a log of less than 2^32 bytes, or on
a file that does not exist, and making sets that do not rotate, keeps the
engine consistent with the log. -/
theorem open_then_sets (d : Disk) (name : String) (log0 : List Record) (cs : List SetCall)
    (hfile : d.content name = encodeLog log0)
    (hts : ∀ r ∈ log0, r.timestamp < 4294967296) (hsmall : logSize log0 < 4294967296)
    (hroom : cs = [] ∨ logSize log0 + totalEncodedSize cs ≤ MaxFileSize) :
    ∃ d1 g1, setAll (Gocask d name).1 (Gocask d name).2 cs = some (d1, g1) ∧
      Consistent d1 g1 name (log0 ++ cs.map SetCall.record) := by
  have hopen : Consistent (Gocask d name).1 (Gocask d name).2 name log0 := by
    cases hr : d.read name with
    | none =>
      have h0 : d.content name = [] := by simp [Disk.content, hr]
      have hl : log0 = [] := encodeLog_eq_nil log0 (by rw [← hfile, h0])
      subst hl
      exact Gocask_fresh d name h0
    | some c =>
      have hc : c = encodeLog log0 := by simpa [Disk.content, hr] using hfile
      subst hc
      exact Gocask_reopen d name log0 hr hsmall hts
  rcases hroom with h | h
  · subst h
    exact ⟨_, _, rfl, by simpa using hopen⟩
  · exact setAll_consistent cs _ _ name log0 hopen h

/-- C15 (as amended): in every state reached by opening a store on a file that
does not exist, is empty, or is made of complete records and smaller than 2^32
bytes, and then performing any sequence of sets without rotation, the active
file holds the log (the records of the file followed by those of the sets), and
for every key: if the key is in the key directory, its entry has the offset,
the size and the timestamp of the last record of the log with that key; if it is
not, the log has no record with that key. -/
theorem keyDir_reflects_log (d : Disk) (name : String) (log0 : List Record)
    (cs : List SetCall) (hfile : d.content name = encodeLog log0)
    (hts : ∀ r ∈ log0, r.timestamp < 4294967296) (hsmall : logSize log0 < 4294967296)
    (hroom : cs = [] ∨ logSize log0 + totalEncodedSize cs ≤ MaxFileSize) :
    ∃ d1 g1, setAll (Gocask d name).1 (Gocask d name).2 cs = some (d1, g1) ∧
      g1.currentFile.map File.name = some name ∧
      d1.read name = some (encodeLog (log0 ++ cs.map SetCall.record)) ∧
      ∀ key,
        match g1.keyDir.find key with
        | none => ∀ r ∈ log0 ++ cs.map SetCall.record, r.key ≠ key
        | some e => ∃ pre r post, log0 ++ cs.map SetCall.record = pre ++ r :: post ∧
            r.key = key ∧ (∀ x ∈ post, x.key ≠ key) ∧ e.valuePos = logSize pre ∧
            e.valueSize = r.size ∧ e.timestamp = r.timestamp := by
  obtain ⟨d1, g1, hall, ⟨off, hf⟩, hd, _, hi⟩ := open_then_sets d name log0 cs hfile hts hsmall hroom
  exact ⟨d1, g1, hall, by rw [hf]; rfl, hd, fun key => indexed_describes _ _ hi key⟩

theorem keyDir_reflects_log_witness :
    ∃ d1 g1, setAll (Gocask (Disk.write [] "test.db" (encodeLog [⟨1, [107], [118]⟩])) "test.db").1
        (Gocask (Disk.write [] "test.db" (encodeLog [⟨1, [107], [118]⟩])) "test.db").2
        [⟨5, [107], []⟩, ⟨6, [97], [98]⟩] = some (d1, g1) ∧
      g1.currentFile.map File.name = some "test.db" ∧
      d1.read "test.db" = some (encodeLog ([⟨1, [107], [118]⟩] ++
        List.map SetCall.record [⟨5, [107], []⟩, ⟨6, [97], [98]⟩])) ∧
      ∀ key,
        match g1.keyDir.find key with
        | none => ∀ r ∈ [⟨1, [107], [118]⟩] ++
            List.map SetCall.record [⟨5, [107], []⟩, ⟨6, [97], [98]⟩], r.key ≠ key
        | some e => ∃ pre r post, [⟨1, [107], [118]⟩] ++
              List.map SetCall.record [⟨5, [107], []⟩, ⟨6, [97], [98]⟩] = pre ++ r :: post ∧
            r.key = key ∧ (∀ x ∈ post, x.key ≠ key) ∧ e.valuePos = logSize pre ∧
            e.valueSize = r.size ∧ e.timestamp = r.timestamp :=
  keyDir_reflects_log (Disk.write [] "test.db" (encodeLog [⟨1, [107], [118]⟩])) "test.db"
    [⟨1, [107], [118]⟩] [⟨5, [107], []⟩, ⟨6, [97], [98]⟩] (by decide) (by decide) (by decide)
    (Or.inr (by decide))

/-- Recovery of a file of five complete records, four of them with a value of
2^30 bytes: the fifth record starts at offset 4294967348 and its entry holds
offset 52. -/
theorem recovered_offset_wraps (big : List Byte) (hbig : big.length = 1073741824) :
    ((Gocask (Disk.write [] "1.gocask.dat"
        (encodeLog [⟨0, [107], big⟩, ⟨0, [107], big⟩, ⟨0, [107], big⟩, ⟨0, [107], big⟩,
          ⟨0, [97], [120]⟩])) "1.gocask.dat").2.keyDir.find [97]).map Entry.valuePos = some 52 ∧
    (lastRecordFrom 0 [⟨0, [107], big⟩, ⟨0, [107], big⟩, ⟨0, [107], big⟩, ⟨0, [107], big⟩,
      ⟨0, [97], [120]⟩] [97]).map Prod.fst = some 4294967348 := by
  have hc : InContract [⟨0, [107], big⟩, ⟨0, [107], big⟩, ⟨0, [107], big⟩, ⟨0, [107], big⟩,
      ⟨0, [97], [120]⟩] := by
    intro r hr
    simp only [List.mem_cons, List.mem_singleton, List.not_mem_nil, or_false] at hr
    rcases hr with h | h | h | h | h <;> subst h <;> simp [hbig]
  have hinit := initializeKeyDir_log [] 
    { datafileDir := "", currentFile := none, writePosition := 0, keyDir := [] }
    "1.gocask.dat" _ [] hc incomplete_nil
  rw [List.append_nil] at hinit
  constructor
  · simp only [Gocask, isFileExists, disk_read_write, Option.isSome_some, if_true, hinit,
      List.foldl, indexRecord, find_insert, headerSize, List.length_cons, List.length_nil,
      hbig]
    decide
  · simp [lastRecordFrom, Record.size, hbig]

/-- C15 fails as stated: opened on a file of five complete records, four of
them with a value of 2^30 bytes, the engine holds for the key of the fifth
record an entry with offset 52, while that record starts at offset 4294967348:
the offsets of the key directory are 32 bits wide. -/
theorem keyDir_offset_wraps :
    ((Gocask (Disk.write [] "1.gocask.dat"
        (encodeLog [⟨0, [107], List.replicate 1073741824 0⟩,
          ⟨0, [107], List.replicate 1073741824 0⟩, ⟨0, [107], List.replicate 1073741824 0⟩,
          ⟨0, [107], List.replicate 1073741824 0⟩,
          ⟨0, [97], [120]⟩])) "1.gocask.dat").2.keyDir.find [97]).map Entry.valuePos = some 52 ∧
    (lastRecordFrom 0 [⟨0, [107], List.replicate 1073741824 0⟩,
      ⟨0, [107], List.replicate 1073741824 0⟩, ⟨0, [107], List.replicate 1073741824 0⟩,
      ⟨0, [107], List.replicate 1073741824 0⟩,
      ⟨0, [97], [120]⟩] [97]).map Prod.fst = some 4294967348 :=
  recovered_offset_wraps (List.replicate 1073741824 0) (List.length_replicate _ _)

/-! ## What an entry holds -/

theorem totalEncodedSize_snoc (cs : List SetCall) (c : SetCall) :
    totalEncodedSize (cs ++ [c]) = totalEncodedSize cs + (12 + c.key.length + c.value.length) := by
  simp only [totalEncodedSize, List.map_append, logSize_append, List.map_cons, List.map_nil,
    logSize, Record.size, SetCall.record]
  omega

/-- What the entries hold, on a store opened on a file that does not exist,
is empty, or is made of complete records and smaller than 2^32 bytes, and
written without rotation: the entry that set stores for its key has valuePos
equal to the offset at which the record begins (the length of the file before
the set) and valueSize equal to the size of the whole record; and every entry
that recovery stores has valuePos equal to the offset at which a record of its
key begins and valueSize equal to the size of that whole record. -/
theorem entry_holds_record_span (d : Disk) (name : String) (log0 : List Record)
    (cs : List SetCall) (c : SetCall) (hfile : d.content name = encodeLog log0)
    (hts : ∀ r ∈ log0, r.timestamp < 4294967296) (hsmall : logSize log0 < 4294967296)
    (hroom : logSize log0 + totalEncodedSize (cs ++ [c]) ≤ MaxFileSize) :
    (∃ d1 g1 d2 g2, setAll (Gocask d name).1 (Gocask d name).2 cs = some (d1, g1) ∧
      set d1 g1 c.now c.key c.value = some (d2, g2) ∧
      (g2.keyDir.find c.key).map (fun e => (e.valuePos, e.valueSize)) =
        some ((d1.content name).length, 12 + c.key.length + c.value.length) ∧
      (d2.content name).drop (d1.content name).length =
        (encodeFileRecord (c.now % 4294967296).toNat c.key c.value).2) ∧
    (∀ key e, (Gocask d name).2.keyDir.find key = some e →
      ∃ pre r post, log0 = pre ++ r :: post ∧ r.key = key ∧
        e.valuePos = logSize pre ∧ e.valueSize = 12 + r.key.length + r.value.length) := by
  rw [totalEncodedSize_snoc] at hroom
  constructor
  · obtain ⟨d1, g1, hall, hc1⟩ := open_then_sets d name log0 cs hfile hts hsmall
      (Or.inr (by omega))
    obtain ⟨d2, g2, hset, hc2⟩ := set_consistent d1 g1 name _ c.now c.key c.value hc1 (by
      rw [logSize_append]
      unfold totalEncodedSize at hroom
      omega)
    obtain ⟨_, hd1, _, _⟩ := hc1
    obtain ⟨_, hd2, _, hi2⟩ := hc2
    refine ⟨d1, g1, d2, g2, hall, hset, ?_, ?_⟩
    · have hk := hi2 c.key
      rw [lastRecordFrom_snoc] at hk
      simp only [if_true, Option.map_some', locatedView, Record.size] at hk
      cases hf : g2.keyDir.find c.key with
      | none => rw [hf] at hk; cases hk
      | some e =>
        rw [hf] at hk
        simp only [Option.map_some', Option.some.injEq, Entry.view, Prod.mk.injEq] at hk
        simp only [Option.map_some', Disk.content, hd1, Option.getD_some, encodeLog_length,
          hk.1, hk.2.1]
    · simp only [Disk.content, hd1, hd2, Option.getD_some, encodeLog_append, encodeLog,
        List.append_nil, List.drop_left]
  · obtain ⟨d1, g1, hall, _, _, _, hi⟩ := open_then_sets d name log0 [] hfile hts hsmall
      (Or.inl rfl)
    simp only [setAll, Option.some.injEq, Prod.mk.injEq] at hall
    obtain ⟨rfl, rfl⟩ := hall
    intro key e he
    have := indexed_describes _ _ hi key
    rw [he] at this
    simp only [List.map_nil, List.append_nil] at this
    obtain ⟨pre, r, post, h1, h2, _, h4, h5, _⟩ := this
    exact ⟨pre, r, post, h1, h2, h4, h5⟩

/-- C18 (the code at the failing input): on a fresh store, set(k, v) with a key
and a value of one byte stores an entry with valuePos 0 and valueSize 14, the
start and the size of the record, where the value begins at offset 13 and has
size 1, as the doc of newEntry has it; recovery of the file stores the same 0
and 14. -/
theorem entry_is_not_value_span :
    (set (Gocask [] "test.db").1 (Gocask [] "test.db").2 5 [107] [118]).map
      (fun s => ((s.2.keyDir.find [107]).map (fun e => (e.valuePos, e.valueSize)),
        (s.1.content "test.db").drop 13, 0 + 12 + [(107 : Byte)].length,
        [(118 : Byte)].length))
      = some (some (0, 14), [118], 13, 1) ∧
    ((Gocask (Disk.write [] "test.db" (encodeFileRecord 5 [107] [118]).2) "test.db").2.keyDir.find
      [107]).map (fun e => (e.valuePos, e.valueSize)) = some (0, 14) := by
  decide

/-- C19 (the code at the failing input): on a fresh store opened as `test.db`,
set(k, v) writes the record into `test.db` and stores the fileId
`test.db.gocask.dat`, the name of no file; recovery of the same file stores the
fileId `test.db` for the same record. -/
theorem set_fileId_is_not_the_file :
    ∃ d1 g1, set (Gocask [] "test.db").1 (Gocask [] "test.db").2 5 [107] [118] = some (d1, g1) ∧
      (g1.keyDir.find [107]).map Entry.fileId = some "test.db.gocask.dat" ∧
      g1.currentFile.map File.name = some "test.db" ∧
      d1.read "test.db" = some (encodeFileRecord 5 [107] [118]).2 ∧
      d1.read "test.db.gocask.dat" = none ∧
      ((Gocask d1 "test.db").2.keyDir.find [107]).map Entry.fileId = some "test.db" := by
  refine ⟨_, _, rfl, ?_⟩
  decide

end Cask
